import Mathlib

/-!
Verification development for the personal-assistant conversational core.

The Python sources are embedded shallowly:
* strings are `List Char` (Python `str` values are sequences of unicode
  scalar values; the utterances handled here are treated per scalar value);
* the regular expressions of `app/services/nlu.py` and `app/main.py` are
  translated into explicit deterministic matching functions that implement
  exactly the backtracking order of CPython `re` on those fixed patterns;
* the fallible collaborator calls (Postgres, Neo4j, Redis, Pinecone, the
  generation backends) are inputs of type `Except Unit _`:
  `.error ()` models the call raising, `.ok v` models it returning `v`;
* Python `datetime` values are reduced to the components the code under
  verification actually produces and compares: an IST day index and a
  minute-of-day (seconds are always zero on the clock path of
  `parse_time_string`, and no claim inspects seconds).
-/

deriving instance DecidableEq for Except

namespace Assistant

/-! ## Character helpers (Python `str` semantics on the relevant alphabet) -/

/-- Code point of a character. -/
def cn (c : Char) : Nat := c.toNat

/-- ASCII apostrophe, written via its code point. -/
def apos : Char := Char.ofNat 39

/-- Python `str.strip` / `\s` whitespace set (ASCII part, which is the part
the assistant's inputs use): space, tab, newline, carriage return,
vertical tab, form feed. -/
def isPySpace (c : Char) : Bool :=
  cn c == 32 || cn c == 9 || cn c == 10 || cn c == 13 || cn c == 11 || cn c == 12

def isDigitC (c : Char) : Bool := 48 ≤ cn c && cn c ≤ 57

/-- Python regex `\w` on the ASCII range. -/
def isWordC (c : Char) : Bool :=
  isDigitC c || (97 ≤ cn c && cn c ≤ 122) || (65 ≤ cn c && cn c ≤ 90) || cn c == 95

/-- Python `str.lower` on one character (ASCII range; the sources only
distinguish ASCII case). -/
def pyLowerC (c : Char) : Char :=
  if 65 ≤ cn c && cn c ≤ 90 then Char.ofNat (cn c + 32) else c

def pyLower (l : List Char) : List Char := l.map pyLowerC

/-- Python `str.upper` on one character (ASCII range), used to state
case-insensitivity claims. -/
def pyUpperC (c : Char) : Char :=
  if 97 ≤ cn c && cn c ≤ 122 then Char.ofNat (cn c - 32) else c

def pyUpper (l : List Char) : List Char := l.map pyUpperC

/-- Python `str.lstrip()`. -/
def lstrip (l : List Char) : List Char := l.dropWhile isPySpace

/-- Python `str.rstrip()`. -/
def rstrip (l : List Char) : List Char := (l.reverse.dropWhile isPySpace).reverse

/-- Python `str.strip()`. -/
def pstrip (l : List Char) : List Char := lstrip (rstrip l)

/-- Python `needle in hay` (substring test). -/
def containsSub (needle : List Char) : List Char → Bool
  | [] => needle.isEmpty
  | c :: rest => needle.isPrefixOf (c :: rest) || containsSub needle rest

/-- Worker for `removeSub`, with fuel; the fuel is always at least the
length of the list, so the guard arm is never taken. -/
def removeSubGo (sub : List Char) : Nat → List Char → List Char
  | _, [] => []
  | 0, l => l
  | fuel + 1, c :: rest =>
    if sub.isPrefixOf (c :: rest) then removeSubGo sub fuel ((c :: rest).drop sub.length)
    else c :: removeSubGo sub fuel rest

/-- Python `hay.replace(sub, "")`: remove every non-overlapping occurrence of
`sub`, scanning left to right. -/
def removeSub (sub : List Char) (l : List Char) : List Char :=
  if sub.isEmpty then l else removeSubGo sub l.length l

/-- Digit character of a digit value. -/
def digitChar (d : Nat) : Char := Char.ofNat (48 + d)

/-- Value of a digit run (Python `int` of a digit string). -/
def digitsVal (ds : List Char) : Nat := ds.foldl (fun a c => 10 * a + (cn c - 48)) 0

/-- Python `"\n".join`. -/
def joinNl (l : List (List Char)) : List Char := List.intercalate ['\n'] l

/-! ## `app/services/nlu.py` — `parse_time_string`

The source turns a phrase into an IST datetime string
`YYYY-MM-DD HH:MM:SS` or returns `None`.  The embedding returns the
components of that datetime: the IST day index and the minute of day
(`DT`), or `none`.  The ambient instant `datetime.now(IST)` is a
parameter `TimeCtx`. -/

/-- The current IST instant: day index and minute of day. -/
structure TimeCtx where
  today : Nat
  nowMinute : Nat
deriving DecidableEq, Repr

/-- A resolved timestamp: IST day index and minute of day
(the clock path of the source always has seconds `00`). -/
structure DT where
  day : Nat
  minute : Nat
deriving DecidableEq, Repr

/-- Context-free result of the phrase grammar: either a clock time with a
day offset, or a relative offset in minutes from the current instant. -/
inductive ParsedTime where
  | clock (dayOffset : Nat) (minuteOfDay : Nat)
  | rel (minutesDelta : Nat)
deriving DecidableEq, Repr

/-- CPython `strptime` `%I` directive: regex `1[0-2]|0[1-9]|[1-9]`,
alternatives tried left to right. -/
def matchI : List Char → Option (Nat × List Char)
  | c1 :: c2 :: rest =>
    if cn c1 == 49 && (48 ≤ cn c2 && cn c2 ≤ 50) then some (10 + (cn c2 - 48), rest)
    else if cn c1 == 48 && (49 ≤ cn c2 && cn c2 ≤ 57) then some (cn c2 - 48, rest)
    else if 49 ≤ cn c1 && cn c1 ≤ 57 then some (cn c1 - 48, c2 :: rest)
    else none
  | [c1] => if 49 ≤ cn c1 && cn c1 ≤ 57 then some (cn c1 - 48, []) else none
  | [] => none

/-- CPython `strptime` `%M` directive: regex `[0-5]\d|\d`. -/
def matchM : List Char → Option (Nat × List Char)
  | c1 :: c2 :: rest =>
    if (48 ≤ cn c1 && cn c1 ≤ 53) && isDigitC c2 then
      some (10 * (cn c1 - 48) + (cn c2 - 48), rest)
    else if isDigitC c1 then some (cn c1 - 48, c2 :: rest)
    else none
  | [c1] => if isDigitC c1 then some (cn c1 - 48, []) else none
  | [] => none

/-- A whitespace character in a `strptime` format maps to `\s+`:
one or more whitespace characters, consumed greedily. -/
def ws1 : List Char → Option (List Char)
  | c :: rest => if isPySpace c then some (rest.dropWhile isPySpace) else none
  | [] => none

/-- CPython `strptime` `%p` directive on lowercased input: `am` or `pm`;
returns `true` for `pm`. -/
def matchP : List Char → Option (Bool × List Char)
  | 'a' :: 'm' :: rest => some (false, rest)
  | 'p' :: 'm' :: rest => some (true, rest)
  | _ => none

/-- `datetime.strptime(s, "%I:%M %p")`: the whole string must be consumed. -/
def strptimeIMp (l : List Char) : Option (Nat × Nat × Bool) :=
  match matchI l with
  | none => none
  | some (h, r1) =>
    match r1 with
    | ':' :: r2 =>
      match matchM r2 with
      | none => none
      | some (m, r3) =>
        match ws1 r3 with
        | none => none
        | some r4 =>
          match matchP r4 with
          | none => none
          | some (pm, r5) => if r5.isEmpty then some (h, m, pm) else none
    | _ => none

/-- `datetime.strptime(s, "%I %p")`: the whole string must be consumed. -/
def strptimeIp (l : List Char) : Option (Nat × Bool) :=
  match matchI l with
  | none => none
  | some (h, r1) =>
    match ws1 r1 with
    | none => none
    | some r2 =>
      match matchP r2 with
      | none => none
      | some (pm, r3) => if r3.isEmpty then some (h, pm) else none

/-- 12-hour to 24-hour conversion performed by `strptime` for `%I` + `%p`. -/
def hour24From (h : Nat) (pm : Bool) : Nat :=
  if pm then (if h == 12 then 12 else h + 12) else (if h == 12 then 0 else h)

/-- One attempt of `re.search(r"in\s+(\d+)\s+(minute|minutes|hour|hours)", _)`
at the current position; returns the offset in minutes.  The alternative
`minute` is tried before `minutes` (so the matched unit text is always
`minute` or `hour`), exactly as in CPython's leftmost-alternative order. -/
def relAt : List Char → Option Nat
  | 'i' :: 'n' :: rest =>
    match rest with
    | c1 :: r1 =>
      if isPySpace c1 then
        match (c1 :: r1).dropWhile isPySpace with
        | d1 :: r3 =>
          if isDigitC d1 then
            let ds := (d1 :: r3).takeWhile isDigitC
            match (d1 :: r3).dropWhile isDigitC with
            | c2 :: r5 =>
              if isPySpace c2 then
                let r6 := (c2 :: r5).dropWhile isPySpace
                if ("minute".data).isPrefixOf r6 then some (digitsVal ds)
                else if ("hour".data).isPrefixOf r6 then some (60 * digitsVal ds)
                else none
              else none
            | [] => none
          else none
        | [] => none
      else none
    | [] => none
  | _ => none

/-- `re.search` scan for the relative-offset pattern. -/
def relSearch : List Char → Option Nat
  | [] => none
  | c :: rest =>
    match relAt (c :: rest) with
    | some n => some n
    | none => relSearch rest

/-- `time_str.endswith("am") or time_str.endswith("pm")`. -/
def endsWithAmPm (l : List Char) : Bool :=
  match l.reverse with
  | 'm' :: 'a' :: _ => true
  | 'm' :: 'p' :: _ => true
  | _ => false

/-- `re.search(r"\s(am|pm)$", l)` on a string that ends in `am`/`pm`:
the character before the final two must be whitespace. -/
def wsBefore2 (l : List Char) : Bool :=
  match l.reverse with
  | _ :: _ :: c :: _ => isPySpace c
  | _ => false

/-- `time_str[:-2] + " " + time_str[-2:]`. -/
def insertSpaceLast2 (l : List Char) : List Char :=
  l.take (l.length - 2) ++ [' '] ++ l.drop (l.length - 2)

/-- The meridiem-spacing normalization step of `parse_time_string`. -/
def amPmFix (l : List Char) : List Char :=
  if endsWithAmPm l && !wsBefore2 l then insertSpaceLast2 l else l

def tomorrowL : List Char := "tomorrow".data
def todayL : List Char := "today".data

/-- The tail of `parse_time_string` after the day qualifier is settled:
meridiem-spacing normalization, the two `strptime` formats in order, then
the relative grammar. -/
def parseAfterQualifier (off : Nat) (t2 : List Char) : Option ParsedTime :=
  match strptimeIMp (amPmFix t2) with
  | some (h, m, pm) => some (.clock off (60 * hour24From h pm + m))
  | none =>
    match strptimeIp (amPmFix t2) with
    | some (h, pm) => some (.clock off (60 * hour24From h pm))
    | none =>
      match relSearch (amPmFix t2) with
      | some d => some (.rel d)
      | none => none

/-- The `tomorrow`/`today` detection and removal of `parse_time_string`. -/
def parseQualified (t1 : List Char) : Option ParsedTime :=
  if containsSub tomorrowL t1 then parseAfterQualifier 1 (pstrip (removeSub tomorrowL t1))
  else if containsSub todayL t1 then parseAfterQualifier 0 (pstrip (removeSub todayL t1))
  else parseAfterQualifier 0 t1

/-- Context-free core of `parse_time_string`: the empty guard and the
strip / dot-removal / lowercase preprocessing, then the rest. -/
def parseTimeCore (time_str0 : List Char) : Option ParsedTime :=
  if time_str0.isEmpty then none
  else parseQualified (pyLower (removeSub ['.'] (pstrip time_str0)))

/-- `parse_time_string` of `app/services/nlu.py`, relative to the current
IST instant `ctx`. -/
def parse_time_string (ctx : TimeCtx) (time_str : List Char) : Option DT :=
  match parseTimeCore time_str with
  | some (.clock off mins) => some ⟨ctx.today + off, mins⟩
  | some (.rel delta) =>
    let tot := ctx.nowMinute + delta
    some ⟨ctx.today + tot / 1440, tot % 1440⟩
  | none => none

/-! ## `app/services/nlu.py` — `get_structured_intent`

The structured-intent dictionaries of the source become the inductive
`Intent`; each regex of the cascade becomes a deterministic matcher that
reproduces CPython leftmost/lazy/greedy backtracking on that pattern.
In these patterns `.` matches every character except a newline, `re.match`
anchors at the start only (a partial match suffices), and `$` matches at
the end of the string or just before a terminating newline. -/

inductive Intent where
  | save_fact (key value : List Char)
  | create_task (title : List Char) (datetime : Option DT)
      (priority category notes : List Char)
  | fetch_tasks
  | get_chat_history
  | open_external (target query : List Char)
  | general_chat
deriving DecidableEq, Repr

/-- Greedy `.+` run: longest prefix without a newline. -/
def dotStar (l : List Char) : List Char := l.takeWhile (fun c => c != '\n')

/-- Whether `(.+)` can match at this position (at least one non-newline char). -/
def dotOk : List Char → Bool
  | c :: _ => c != '\n'
  | [] => false

/-- Lazy `(.+?)` followed by the literal `sep` followed by `(.+)`:
the first group grows one character at a time from length one, and at each
length the rest of the pattern is tried.  Returns `(group₁, group₂)`.
The fuel is always one more than the length of the remaining input, so the
zero-fuel arm is never taken. -/
def lazyGo (sep : List Char) : Nat → List Char → List Char → Option (List Char × List Char)
  | 0, _, _ => none
  | fuel + 1, acc, rem =>
    if sep.isPrefixOf rem && dotOk (rem.drop sep.length) then
      some (acc, dotStar (rem.drop sep.length))
    else
      match rem with
      | [] => none
      | c :: rest => if c == '\n' then none else lazyGo sep fuel (acc ++ [c]) rest

def lazyDotSep (sep : List Char) : List Char → Option (List Char × List Char)
  | [] => none
  | c :: rest => if c == '\n' then none else lazyGo sep (rest.length + 1) [c] rest

/-- `re.match(r"(save|remember) fact (.+?) as (.+)", msg)`. -/
def matchFact (msg : List Char) : Option (List Char × List Char) :=
  match (if ("save fact ".data).isPrefixOf msg then lazyDotSep (" as ".data) (msg.drop 10) else none) with
  | some r => some r
  | none =>
    if ("remember fact ".data).isPrefixOf msg then lazyDotSep (" as ".data) (msg.drop 14) else none

/-- `re.match(r"(remember|my) (.+?) is (.+)", msg)`. -/
def matchGenericFact (msg : List Char) : Option (List Char × List Char) :=
  match (if ("remember ".data).isPrefixOf msg then lazyDotSep (" is ".data) (msg.drop 9) else none) with
  | some r => some r
  | none =>
    if ("my ".data).isPrefixOf msg then lazyDotSep (" is ".data) (msg.drop 3) else none

/-- `re.match(r"(?:create|add) task (.+?) due (.+)", msg)`. -/
def matchTaskDue (msg : List Char) : Option (List Char × List Char) :=
  match (if ("create task ".data).isPrefixOf msg then lazyDotSep (" due ".data) (msg.drop 12) else none) with
  | some r => some r
  | none =>
    if ("add task ".data).isPrefixOf msg then lazyDotSep (" due ".data) (msg.drop 9) else none

/-- `$` of the patterns below: end of string, or just before a final newline. -/
def endDollar : List Char → Bool
  | [] => true
  | ['\n'] => true
  | _ => false

/-- The present branch of `(?: at (.+))?$` at this position: literal
`" at "`, then a greedy `(.+)` that must be followed by `$`. -/
def atTail (rem : List Char) : Option (List Char) :=
  if (" at ".data).isPrefixOf rem then
    let r := rem.drop 4
    let d := dotStar r
    if !d.isEmpty && endDollar (r.drop d.length) then some d else none
  else none

/-- Lazy `(.+?)(?: at (.+))?$`: at each candidate end of the first group the
present branch of the optional group is tried before the absent branch.
The fuel is always one more than the length of the remaining input. -/
def lazyAtDollar : Nat → List Char → List Char → Option (List Char × Option (List Char))
  | 0, _, _ => none
  | fuel + 1, acc, rem =>
    match atTail rem with
    | some d => some (acc, some d)
    | none =>
      if endDollar rem then some (acc, none)
      else
        match rem with
        | [] => none
        | c :: rest => if c == '\n' then none else lazyAtDollar fuel (acc ++ [c]) rest

def lazyAtDollarStart : List Char → Option (List Char × Option (List Char))
  | [] => none
  | c :: rest => if c == '\n' then none else lazyAtDollar (rest.length + 1) [c] rest

/-- `re.match(r"remind me to (.+?)(?: at (.+))?$", msg)`. -/
def reminderMatch (msg : List Char) : Option (List Char × Option (List Char)) :=
  if ("remind me to ".data).isPrefixOf msg then lazyAtDollarStart (msg.drop 13) else none

/-- Ordered alternation of literal prefixes with full backtracking into the
continuation `k`. -/
def tryAlt (alts : List (List Char)) (s : List Char) (k : List Char → Option α) : Option α :=
  alts.foldr
    (fun a acc =>
      match (if a.isPrefixOf s then k (s.drop a.length) else none) with
      | some r => some r
      | none => acc)
    none

/-- A greedy optional literal group `(?:a|b|…)?` with backtracking:
each alternative is tried, then absence. -/
def tryOpt (alts : List (List Char)) (s : List Char) (k : List Char → Option α) : Option α :=
  match tryAlt alts s k with
  | some r => some r
  | none => k s

/-- The tail `  (.+?)(?: at (.+))?$` (a literal space then the lazy group). -/
def flexTail (rem : List Char) : Option (List Char × Option (List Char)) :=
  match rem with
  | c :: rest => if c == ' ' then lazyAtDollarStart rest else none
  | [] => none

/-- `re.match(r"(?:add|create)(?: me)?(?: a)?(?: task| reminder)?(?: to)? (.+?)(?: at (.+))?$", msg)`. -/
def flexMatch (msg : List Char) : Option (List Char × Option (List Char)) :=
  tryAlt ["add".data, "create".data] msg fun r1 =>
    tryOpt [" me".data] r1 fun r2 =>
      tryOpt [" a".data] r2 fun r3 =>
        tryOpt [" task".data, " reminder".data] r3 fun r4 =>
          tryOpt [" to".data] r4 flexTail

/-- True when the next position cannot extend a word (`\b` after a word
character): end of string or a non-word character. -/
def nonWordNext : List Char → Bool
  | [] => true
  | c :: _ => !isWordC c

def merTxt : List Char → Option (List Char)
  | 'a' :: 'm' :: _ => some ("am".data)
  | 'p' :: 'm' :: _ => some ("pm".data)
  | _ => none

/-- `\s?(?:am|pm)` with the greedy optional whitespace tried first;
returns the matched text. -/
def wsMer (l : List Char) : Option (List Char) :=
  match
    (match l with
     | c :: rest => if isPySpace c then (merTxt rest).map (fun m => c :: m) else none
     | [] => none) with
  | some r => some r
  | none => merTxt l

/-- `(?::\d{2})?\s?(?:am|pm)` with the greedy optional minutes tried first;
returns the matched text. -/
def colonWsMer (l : List Char) : Option (List Char) :=
  match
    (match l with
     | ':' :: c1 :: c2 :: rest =>
       if isDigitC c1 && isDigitC c2 then
         (wsMer rest).map (fun t => ':' :: c1 :: c2 :: t)
       else none
     | _ => none) with
  | some r => some r
  | none => wsMer l

/-- First alternative of the embedded-time search:
`\d{1,2}(?::\d{2})?\s?(?:am|pm)` (two digits tried before one);
returns the matched text. -/
def alt1At : List Char → Option (List Char)
  | [] => none
  | c1 :: rest =>
    if isDigitC c1 then
      match
        (match rest with
         | c2 :: rest2 =>
           if isDigitC c2 then (colonWsMer rest2).map (fun t => c1 :: c2 :: t) else none
         | [] => none) with
      | some r => some r
      | none => (colonWsMer rest).map (fun t => c1 :: t)
    else none

/-- Second alternative: `\b(?:today|tomorrow)\b` (`prevW` records whether the
previous character is a word character); returns the matched text. -/
def alt2At (prevW : Bool) (l : List Char) : Option (List Char) :=
  if prevW then none
  else if todayL.isPrefixOf l && nonWordNext (l.drop 5) then some todayL
  else if tomorrowL.isPrefixOf l && nonWordNext (l.drop 8) then some tomorrowL
  else none

/-- Third alternative: `in\s+\d+\s+(?:minute|minutes|hour|hours)`;
returns the matched text (`minute` is tried before `minutes`, `hour`
before `hours`, so the matched unit is always `minute` or `hour`). -/
def alt3At (l : List Char) : Option (List Char) :=
  match l with
  | 'i' :: 'n' :: rest =>
    match rest with
    | c1 :: r1 =>
      if isPySpace c1 then
        let wsA := (c1 :: r1).takeWhile isPySpace
        match (c1 :: r1).dropWhile isPySpace with
        | d1 :: r3 =>
          if isDigitC d1 then
            let ds := (d1 :: r3).takeWhile isDigitC
            match (d1 :: r3).dropWhile isDigitC with
            | c2 :: r5 =>
              if isPySpace c2 then
                let wsB := (c2 :: r5).takeWhile isPySpace
                let r6 := (c2 :: r5).dropWhile isPySpace
                if ("minute".data).isPrefixOf r6 then
                  some ("in".data ++ wsA ++ ds ++ wsB ++ "minute".data)
                else if ("hour".data).isPrefixOf r6 then
                  some ("in".data ++ wsA ++ ds ++ wsB ++ "hour".data)
                else none
              else none
            | [] => none
          else none
        | [] => none
      else none
    | [] => none
  | _ => none

def timeSearchAt (prevW : Bool) (l : List Char) : Option (List Char) :=
  match alt1At l with
  | some t => some t
  | none =>
    match alt2At prevW l with
    | some t => some t
    | none => alt3At l

/-- `re.search` scan for the embedded time/day/relative phrase of the
reminder rules; returns the matched text of the earliest match. -/
def timeSearchGo (prevW : Bool) : List Char → Option (List Char)
  | [] => none
  | c :: rest =>
    match timeSearchAt prevW (c :: rest) with
    | some t => some t
    | none => timeSearchGo (isWordC c) rest

def timeSearch (l : List Char) : Option (List Char) := timeSearchGo false l

/-- Common slot handling of the reminder and flexible task rules:
`group(1)` is stripped into the title; a missing/empty `group(2)` triggers
the embedded-time search, whose matched text is removed from the title. -/
def taskFromMatch (ctx : TimeCtx) (g1 : List Char) (g2 : Option (List Char)) : Intent :=
  let title := pstrip g1
  let tp0 : Option (List Char) := g2.map pstrip
  let searchNeeded : Bool :=
    match tp0 with
    | none => true
    | some t => t.isEmpty
  let tpTitle : Option (List Char) × List Char :=
    if searchNeeded then
      match timeSearch title with
      | some t => (some t, pstrip (removeSub t title))
      | none => (tp0, title)
    else (tp0, title)
  let dtv : Option DT :=
    match tpTitle.1 with
    | some t => if t.isEmpty then none else parse_time_string ctx t
    | none => none
  .create_task tpTitle.2 dtv ("medium".data) ("personal".data) []

def fetchKeywords : List (List Char) :=
  ["show tasks".data, "list tasks".data, "my tasks".data]

def historyKeywords : List (List Char) :=
  ["show chat history".data, "last chats".data, "previous messages".data]

def anySub (qs : List (List Char)) (l : List Char) : Bool :=
  qs.any (fun q => containsSub q l)

def appsList : List (List Char) :=
  ["youtube".data, "maps".data, "whatsapp".data, "spotify".data, "instagram".data]

/-- The sep-and-boundary check of `(.+?) on {app}\b` at this position. -/
def appSepHit (app rem : List Char) : Bool :=
  (" on ".data ++ app).isPrefixOf rem && nonWordNext (rem.drop (4 + app.length))

def appSepGo (app : List Char) : Nat → List Char → List Char → Option (List Char)
  | 0, _, _ => none
  | fuel + 1, acc, rem =>
    if appSepHit app rem then some acc
    else
      match rem with
      | [] => none
      | c :: rest => if c == '\n' then none else appSepGo app fuel (acc ++ [c]) rest

def appSepStart (app : List Char) : List Char → Option (List Char)
  | [] => none
  | c :: rest => if c == '\n' then none else appSepGo app (rest.length + 1) [c] rest

/-- `re.match(rf"(?:play|search|find|open|launch|go to) (.+?) on {app}\b", msg)`. -/
def appQuery1 (app msg : List Char) : Option (List Char) :=
  tryAlt ["play ".data, "search ".data, "find ".data, "open ".data,
          "launch ".data, "go to ".data] msg
    (fun r => appSepStart app r)

def isQ2Class (c : Char) : Bool := c == ':' || c == '-' || isPySpace c

/-- Backtracking over the greedy `[:\-\s]+` run: give back characters until
`(.+)` can match. -/
def q2Go (rem : List Char) : Nat → Option (List Char)
  | 0 => none
  | k + 1 =>
    match
      (match rem.drop (k + 1) with
       | c :: rest => if c != '\n' then some (dotStar (c :: rest)) else none
       | [] => none) with
    | some r => some r
    | none => q2Go rem k

/-- `re.match(rf"{app}[:\-\s]+(.+)", msg)`. -/
def appQuery2 (app msg : List Char) : Option (List Char) :=
  if app.isPrefixOf msg then
    let rem := msg.drop app.length
    q2Go rem ((rem.takeWhile isQ2Class).length)
  else none

def appQuery (app msg : List Char) : Option (List Char) :=
  match appQuery1 app msg with
  | some q => some q
  | none => appQuery2 app msg

/-- The external-app loop: for the first known app name occurring in the
message, extract the query (default empty). -/
def externalApp : List (List Char) → List Char → Option Intent
  | [], _ => none
  | a :: rest, msg =>
    if containsSub a msg then
      some (.open_external a
        (match appQuery a msg with
         | some q => pstrip q
         | none => []))
    else externalApp rest msg

/-- The leading courtesy-prefix removal
`re.sub(r"^(please\s+|please,\s+|can you\s+|could you\s+|would you\s+)", "", msg)`:
anchored, so at most one removal, alternatives in written order, each
requiring at least one following whitespace character (consumed greedily). -/
def courtesyGo : List (List Char) → List Char → List Char
  | [], l => l
  | p :: ps, l =>
    if p.isPrefixOf l &&
        (match l.drop p.length with
         | c :: _ => isPySpace c
         | [] => false) then
      (l.drop p.length).dropWhile isPySpace
    else courtesyGo ps l

def stripCourtesy (l : List Char) : List Char :=
  courtesyGo ["please".data, "please,".data, "can you".data,
              "could you".data, "would you".data] l

/-- The rule cascade of `get_structured_intent` after normalization. -/
def classifyCore (ctx : TimeCtx) (msg : List Char) : Intent :=
  match matchFact msg with
  | some (k, v) => .save_fact (pstrip k) (pstrip v)
  | none =>
  match matchGenericFact msg with
  | some (k, v) => .save_fact (pstrip k) (pstrip v)
  | none =>
  match matchTaskDue msg with
  | some (t, d) =>
    .create_task (pstrip t) (parse_time_string ctx (pstrip d))
      ("medium".data) ("personal".data) []
  | none =>
  match reminderMatch msg with
  | some (g1, g2) => taskFromMatch ctx g1 g2
  | none =>
  match flexMatch msg with
  | some (g1, g2) => taskFromMatch ctx g1 g2
  | none =>
  if anySub fetchKeywords msg then .fetch_tasks
  else if anySub historyKeywords msg then .get_chat_history
  else
    match externalApp appsList msg with
    | some i => i
    | none => .general_chat

/-- `get_structured_intent` of `app/services/nlu.py`. -/
def get_structured_intent (ctx : TimeCtx) (user_message : List Char) : Intent :=
  classifyCore ctx (stripCourtesy (pstrip (pyLower user_message)))

/-! ## `app/services/ai_services.py` — `get_response`

`settings` fields become `GenCfg`; each backend call becomes an
`Except Unit (List Char)` input (`.error ()`: the call raised; `.ok t`:
it returned text `t` — the `result.text` attribute for Gemini, the first
generation for Cohere).  `message` is a `PyVal`, because the function
documents a dict argument while `app/main.py` passes a plain string, and
the distinction decides whether the very first attribute access raises. -/

/-- The relevant part of `app.config.settings` for generation. -/
structure GenCfg where
  /-- `settings.AI_PROVIDER`. -/
  provider : List Char
  /-- whether `import cohere` succeeded (`cohere` is not `None`). -/
  cohereModule : Bool
  /-- whether `settings.COHERE_API_KEY` is truthy. -/
  cohereKey : Bool
deriving DecidableEq, Repr

/-- A Python value at the boundary of `get_response`: the documented dict
`{sender, text}`, or a plain string as actually passed by `app/main.py`. -/
inductive PyVal where
  | pyStr (s : List Char)
  | pyDict (sender : Option (List Char)) (text : Option (List Char))
deriving DecidableEq, Repr

inductive PyError where
  /-- `AttributeError`, raised by `message.get(...)` when `message` is a str. -/
  | attributeError
deriving DecidableEq, Repr

def apologyL : List Char :=
  ("Sorry, I couldn".data) ++ [apos] ++ ("t generate a response.".data)

def imNotSureL : List Char :=
  ("I".data) ++ [apos] ++ ("m not sure how to respond to that.".data)

def didntCatchL : List Char := "I didn’t catch that. Could you say it again?".data

/-- The prompt assembled by `get_response` (the f-string of the source);
`sys` stands for `MAIN_SYSTEM_PROMPT`, which lives in
`app/prompt_templates.py`, outside the provided sources. -/
def buildPrompt (sys ctxText facts hist utter : List Char) : List Char :=
  sys ++ "\n\n=== User Context ===\n".data ++ ctxText ++
    "\n\n=== Knowledge Base Facts ===\n".data ++ facts ++
    "\n\n=== Chat History ===\n".data ++ hist ++
    "\n\nUser: ".data ++ utter ++ "\nAssistant:".data

/-- The fallback section of `get_response` (source lines 62–103): returns
the reply text and the list of backends that were invoked.  A backend's
result is `strip`ped on success; a backend that raises leaves
`response_text` at the apology unless a later backend overwrites it; the
final `or` replaces an empty reply by the fixed alternative string. -/
def getResponseCore (cfg : GenCfg) (gem coh : Except Unit (List Char)) :
    List Char × List (List Char) :=
  let rtInv : List Char × List (List Char) :=
    if pyLower cfg.provider = "gemini".data then
      match gem with
      | .ok t => (pstrip t, ["gemini".data])
      | .error _ =>
        if cfg.cohereModule && cfg.cohereKey then
          match coh with
          | .ok t => (pstrip t, ["gemini".data, "cohere".data])
          | .error _ => (apologyL, ["gemini".data, "cohere".data])
        else (apologyL, ["gemini".data])
    else if pyLower cfg.provider = "cohere".data && cfg.cohereModule then
      match coh with
      | .ok t => (pstrip t, ["cohere".data])
      | .error _ => (apologyL, ["cohere".data])
    else (apologyL, [])
  (if rtInv.1.isEmpty then imNotSureL else rtInv.1, rtInv.2)

/-- Bookkeeping of the collaborator calls made by one `get_response` run. -/
structure GenEffects where
  memQueried : Bool
  memStored : Bool
  invoked : List (List Char)
deriving DecidableEq, Repr

/-- The dict path of `get_response`: empty-text early return, semantic
memory query (failure contributes `[]`) and store, prompt assembly, then
the backend fallback chain.  `semQ` is the `query_semantic_memory` result. -/
def getResponseModel (cfg : GenCfg) (sys : List Char) (text hist facts : List Char)
    (semQ : Except Unit (List (List Char))) (gem coh : Except Unit (List Char)) :
    List Char × GenEffects :=
  let user_text := pstrip text
  if user_text.isEmpty then (didntCatchL, ⟨false, false, []⟩)
  else
    let mems : List (List Char) :=
      match semQ with
      | .ok l => l
      | .error _ => []
    let context_text := if mems.isEmpty then [] else joinNl mems
    let prompt := buildPrompt sys context_text facts hist user_text
    let core := getResponseCore cfg gem coh
    let _ := prompt
    (core.1, ⟨true, true, core.2⟩)

/-- `get_response` of `app/services/ai_services.py`.  The first statement
executed on the message is `message.get("sender")`; on a plain string this
raises `AttributeError` before anything else happens. -/
def get_response (cfg : GenCfg) (sys : List Char) (message : PyVal)
    (history neo4j_facts : List Char) (semQ : Except Unit (List (List Char)))
    (gem coh : Except Unit (List Char)) :
    Except PyError (List Char × GenEffects) :=
  match message with
  | .pyStr _ => .error .attributeError
  | .pyDict _ text =>
    .ok (getResponseModel cfg sys (text.getD []) history neo4j_facts semQ gem coh)

/-! ## `app/db/utils.py` — tasks and pending tasks

The Postgres tables that the claims inspect (`pending_tasks`, `tasks`)
become lists of rows; `SERIAL` ids and `CURRENT_TIMESTAMP` become the
counters `nextId` and `clock` of the store state. -/

structure PendingRow where
  id : Nat
  user_id : Nat
  title : List Char
  created_at : Nat
deriving DecidableEq, Repr

structure TaskRow where
  user_id : Nat
  title : List Char
  datetime : Option DT
  priority : List Char
  category : List Char
  notes : List Char
deriving DecidableEq, Repr

structure DB where
  pending : List PendingRow
  tasks : List TaskRow
  nextId : Nat
  clock : Nat
deriving DecidableEq, Repr

/-- `save_pending_task`: a plain `INSERT INTO pending_tasks` — no delete or
upsert of earlier rows of the same user. -/
def save_pending_task (db : DB) (user_id : Nat) (title : List Char) : DB :=
  { db with
    pending := db.pending ++ [⟨db.nextId, user_id, title, db.clock⟩]
    nextId := db.nextId + 1
    clock := db.clock + 1 }

/-- The fold that realizes `ORDER BY created_at DESC LIMIT 1`. -/
def pickLatest (acc : Option PendingRow) (r : PendingRow) : Option PendingRow :=
  match acc with
  | none => some r
  | some b => if b.created_at < r.created_at then some r else some b

/-- `get_pending_task`: the row of this user with the greatest
`created_at` (the embedding's clock is strictly increasing, so there are
no ties). -/
def get_pending_task (db : DB) (user_id : Nat) : Option PendingRow :=
  (db.pending.filter (fun r => r.user_id == user_id)).foldl pickLatest none

/-- `delete_pending_task`: `DELETE FROM pending_tasks WHERE id = %s`. -/
def delete_pending_task (db : DB) (pending_id : Nat) : DB :=
  { db with pending := db.pending.filter (fun r => r.id != pending_id) }

/-- `save_task`: a plain `INSERT INTO tasks`. -/
def save_task (db : DB) (row : TaskRow) : DB :=
  { db with tasks := db.tasks ++ [row], clock := db.clock + 1 }

/-! ## `app/main.py` — the `/chat/` endpoint

The request body, the collaborator outcomes of this turn, and the
generation configuration are inputs; the result is the HTTP outcome, the
updated task store, and the trace of write effects issued.  An exception
inside the handler is caught by the outer `except` and re-raised as an
HTTP 500 (`TurnOutcome.httpError 500`); writes already issued stay. -/

structure Request where
  user_message : List Char
  chat_id : Option (List Char)
  user_name : Option (List Char)
  user_email : Option (List Char)
  /-- the authenticated user id decoded from the token. -/
  userId : Nat
deriving DecidableEq, Repr

/-- Outcomes of the collaborator calls this turn may make. -/
structure Collab where
  /-- `get_messages_by_chat` rows: (sender is user?, content). -/
  histMsgs : Except Unit (List (Bool × List Char))
  /-- `get_chat_history` rows: (user_query, ai_response). -/
  histRows : Except Unit (List (List Char × List Char))
  /-- `get_facts_neo4j` rows: (key, value). -/
  facts : Except Unit (List (List Char × List Char))
  /-- `payload.get("name")` of the decoded token (None if decode failed). -/
  tokenName : Option (List Char)
  /-- `payload.get("email")` of the decoded token. -/
  tokenEmail : Option (List Char)
  /-- `query_semantic_memory` result. -/
  semQuery : Except Unit (List (List Char))
  /-- the Gemini call result. -/
  gem : Except Unit (List Char)
  /-- the Cohere call result. -/
  coh : Except Unit (List Char)
  /-- `MAIN_SYSTEM_PROMPT`. -/
  sysPrompt : List Char
deriving Repr

inductive Effect where
  | updateProfile (uid : Nat) (name email : Option (List Char))
  | saveChatE (uid : Nat) (userText reply : List Char)
  | saveChatRedisE (uid : Nat) (userText reply : List Char)
  | savePendingE (uid : Nat) (title : List Char)
  | saveTaskE (row : TaskRow)
  | saveFactE (key value : List Char)
deriving DecidableEq, Repr

inductive TurnOutcome where
  | ok (success : Bool) (reply : List Char)
  | httpError (code : Nat)
deriving DecidableEq, Repr

/-- Python truthiness of an optional string. -/
def optTruthy : Option (List Char) → Bool
  | some l => !l.isEmpty
  | none => false

/-- `x or default` on an optional string. -/
def orDefault (o : Option (List Char)) (d : List Char) : List Char :=
  match o with
  | some l => if l.isEmpty then d else l
  | none => d

def greetingWords : List (List Char) :=
  ["hi".data, "hello".data, "hey".data, "greetings".data,
   "good morning".data, "good afternoon".data, "good evening".data]

/-- `re.match(r"^\s*(?:hi|hello|hey|greetings|good morning|good afternoon|good evening)\b", norm)`
on the already-lowercased `norm`. -/
def greetingMatch (norm : List Char) : Bool :=
  let l := norm.dropWhile isPySpace
  greetingWords.any (fun w => w.isPrefixOf l && nonWordNext (l.drop w.length))

def nameQueries : List (List Char) :=
  ["what is my name".data,
   ("what".data) ++ [apos] ++ ("s my name".data),
   "who am i".data, "do you know my name".data, "my name".data]

def emailQueries : List (List Char) :=
  ["what is my email".data,
   ("what".data) ++ [apos] ++ ("s my email".data),
   "what is my e-mail".data, "my email".data]

/-- The greeting / identity short-circuit condition of the handler. -/
def quickIntercept (norm : List Char) : Bool :=
  greetingMatch norm || anySub nameQueries norm || anySub emailQueries norm

/-- The profile write of lines 150–152: issued whenever the request carries
a truthy `user_name` or `user_email`. -/
def profileEffects (req : Request) : List Effect :=
  if optTruthy req.user_name || optTruthy req.user_email then
    [.updateProfile req.userId req.user_name req.user_email]
  else []

def renderMsgs (msgs : List (Bool × List Char)) : List Char :=
  joinNl (msgs.map fun m =>
    (if m.1 then "Human".data else "Assistant".data) ++ ": ".data ++ m.2)

def renderRows (rows : List (List Char × List Char)) : List Char :=
  joinNl (rows.map fun r =>
    "Human: ".data ++ r.1 ++ "\nAssistant: ".data ++ r.2)

/-- The history fetch of lines 155–161: by conversation when a truthy
`chat_id` is supplied, else the standalone rows.  Neither call is wrapped
in a `try`, so a raise propagates (modelled by the `Except`). -/
def histText (cb : Collab) (chat_id : Option (List Char)) : Except Unit (List Char) :=
  if optTruthy chat_id then cb.histMsgs.map renderMsgs
  else cb.histRows.map renderRows

def renderFacts (l : List (List Char × List Char)) : List Char :=
  joinNl (l.map fun f => f.1 ++ ": ".data ++ f.2)

/-- Rendering of a resolved timestamp inside a confirmation reply (the
source interpolates the `YYYY-MM-DD HH:MM:SS` string; the embedding
interpolates the day index and minute of day). -/
def dtText : Option DT → List Char
  | some d => Nat.toDigits 10 d.day ++ [':'] ++ Nat.toDigits 10 d.minute
  | none => []

def unknownActionReply : List Char := "⚠ Unknown action".data

/-- The `/chat/` endpoint body of `app/main.py` for one turn. -/
def chat (ctx : TimeCtx) (cb : Collab) (cfg : GenCfg) (db : DB) (req : Request) :
    TurnOutcome × DB × List Effect :=
  let structured := get_structured_intent ctx req.user_message
  let norm := pstrip (pyLower req.user_message)
  if quickIntercept norm then
    let reply :=
      if greetingMatch norm then
        "Hello ".data ++ orDefault cb.tokenName ("there".data) ++
          "! How can I assist you today?".data
      else if anySub nameQueries norm then
        match cb.tokenName with
        | some n =>
          if n.isEmpty then ("I don".data) ++ [apos] ++ ("t have your name yet.".data)
          else "Your name is ".data ++ n
        | none => ("I don".data) ++ [apos] ++ ("t have your name yet.".data)
      else
        match cb.tokenEmail with
        | some e =>
          if e.isEmpty then ("I don".data) ++ [apos] ++ ("t have your email yet.".data)
          else "Your email is ".data ++ e
        | none => ("I don".data) ++ [apos] ++ ("t have your email yet.".data)
    (.ok true reply, db,
      [.saveChatE req.userId req.user_message reply,
       .saveChatRedisE req.userId req.user_message reply])
  else
    let pEffs := profileEffects req
    match histText cb req.chat_id with
    | .error _ => (.httpError 500, db, pEffs)
    | .ok history_text =>
      let facts_text :=
        match cb.facts with
        | .ok l => renderFacts l
        | .error _ => []
      match structured with
      | .general_chat =>
        match get_response cfg cb.sysPrompt (.pyStr req.user_message) history_text
            facts_text cb.semQuery cb.gem cb.coh with
        | .error _ => (.httpError 500, db, pEffs)
        | .ok r =>
          (.ok true r.1, db,
            pEffs ++ [.saveChatE req.userId req.user_message r.1,
                      .saveChatRedisE req.userId req.user_message r.1])
      | .create_task title dtv pr cat nts =>
        if dtv.isNone then
          let db2 := save_pending_task db req.userId title
          let follow := "When should I remind you for ".data ++ [apos] ++ title ++
            [apos] ++ "?".data
          (.ok true follow, db2,
            pEffs ++ [.savePendingE req.userId title,
                      .saveChatE req.userId req.user_message follow,
                      .saveChatRedisE req.userId req.user_message follow])
        else
          let row : TaskRow := ⟨req.userId, title, dtv, pr, cat, nts⟩
          let db2 := save_task db row
          let conf := "Task saved: ".data ++ title ++ " due ".data ++ dtText dtv
          (.ok true conf, db2,
            pEffs ++ [.saveTaskE row,
                      .saveChatE req.userId req.user_message conf,
                      .saveChatRedisE req.userId req.user_message conf])
      | .fetch_tasks =>
        let n := (db.tasks.filter (fun t => t.user_id == req.userId)).length
        let reply := "You have ".data ++ Nat.toDigits 10 n ++ " tasks.".data
        (.ok true reply, db,
          pEffs ++ [.saveChatE req.userId req.user_message reply,
                    .saveChatRedisE req.userId req.user_message reply])
      | .save_fact k v =>
        let reply := "I have saved the fact ".data ++ [apos] ++ k ++ ": ".data ++ v ++
          [apos] ++ " in your knowledge base.".data
        (.ok true reply, db,
          pEffs ++ [.saveFactE k v,
                    .saveChatE req.userId req.user_message reply,
                    .saveChatRedisE req.userId req.user_message reply])
      | .get_chat_history => (.ok false unknownActionReply, db, pEffs)
      | .open_external _ _ => (.ok false unknownActionReply, db, pEffs)

/-! ## Concrete fixtures used to evaluate the model -/

/-- A fixed IST instant: day index 100, 10:00. -/
def ctx0 : TimeCtx := ⟨100, 600⟩

/-- Gemini selected, Cohere importable and keyed. -/
def cfg0 : GenCfg := ⟨"gemini".data, true, true⟩

/-- All collaborators healthy; both backends would answer. -/
def cb0 : Collab :=
  { histMsgs := .ok [], histRows := .ok [], facts := .ok [],
    tokenName := none, tokenEmail := none, semQuery := .ok [],
    gem := .ok ("hello".data), coh := .ok ("hi there".data), sysPrompt := [] }

/-- Like `cb0` but the standalone-history fetch raises. -/
def cbHistErr : Collab := { cb0 with histRows := .error () }

/-- Empty stores. -/
def db0 : DB := ⟨[], [], 0, 0⟩

/-- A bare request from user 1 with no chat id and no profile fields. -/
def mkReq (s : String) : Request := ⟨s.data, none, none, none, 1⟩

/-! ## C1 — backend fallback policy -/

/-- C1 counterexample: with Gemini selected and Cohere available, a
whitespace-only Gemini result does **not** cause Cohere to be invoked
(only `gemini` appears in the attempt list), and the reply is the fixed
string `I'm not sure how to respond to that.` — neither Cohere's answer
nor the apology.  This refutes the claim that an empty/whitespace result
triggers the next backend and that total failure yields the apology. -/
theorem C1_counterexample :
    (getResponseCore cfg0 (.ok ("   ".data)) (.ok ("hi there".data))).2 =
      ["gemini".data] ∧
    (getResponseCore cfg0 (.ok ("   ".data)) (.ok ("hi there".data))).1 =
      imNotSureL ∧
    imNotSureL ≠ "hi there".data ∧ imNotSureL ≠ apologyL := by decide

/-- C1 (amended): with provider `gemini` and Cohere available, the fallback
chain invokes the next backend only when the previous one **raises**: a
Gemini success (even empty) ends the chain with only `gemini` invoked, the
reply being the stripped text, or `I'm not sure how to respond to that.`
when that text is empty; a Gemini raise invokes Cohere, whose success text
is used the same way; if both raise, the fixed apology is returned.  The
chain is a total function, so no exception escapes. -/
theorem C1_fallback_theorem (cfg : GenCfg) (gem coh : Except Unit (List Char))
    (hp : cfg.provider = "gemini".data)
    (hm : cfg.cohereModule = true) (hk : cfg.cohereKey = true) :
    (∀ t, gem = .ok t →
      (getResponseCore cfg gem coh).2 = ["gemini".data] ∧
      (getResponseCore cfg gem coh).1 =
        (if (pstrip t).isEmpty then imNotSureL else pstrip t)) ∧
    (gem = .error () →
      (getResponseCore cfg gem coh).2 = ["gemini".data, "cohere".data] ∧
      (∀ t, coh = .ok t → (getResponseCore cfg gem coh).1 =
        (if (pstrip t).isEmpty then imNotSureL else pstrip t)) ∧
      (coh = .error () → (getResponseCore cfg gem coh).1 = apologyL)) := by
  have hg : pyLower (cfg.provider) = "gemini".data := by rw [hp]; decide
  constructor
  · rintro t rfl
    simp [getResponseCore, hg]
  · rintro rfl
    refine ⟨?_, ?_, ?_⟩
    · cases coh <;> simp [getResponseCore, hg, hm, hk]
    · rintro t rfl
      simp [getResponseCore, hg, hm, hk]
    · rintro rfl
      simp only [getResponseCore, hg, hm, hk]
      decide

/-- C1 witness: the amended theorem applied at a successful Gemini call. -/
theorem C1_witness :
    (getResponseCore cfg0 (.ok ("hello".data)) (.error ())).2 = ["gemini".data] ∧
    (getResponseCore cfg0 (.ok ("hello".data)) (.error ())).1 = "hello".data := by
  have h := (C1_fallback_theorem cfg0 (.ok ("hello".data)) (.error ())
    rfl rfl rfl).1 ("hello".data) rfl
  refine ⟨h.1, ?_⟩
  rw [h.2]
  decide

/-! ## C2 — the GeneralChat turn faults -/

/-- C2 (code bug): `tell me a joke` classifies as GeneralChat and is not
intercepted by the greeting/identity shortcut, yet the turn returns HTTP
500 with every collaborator healthy and both backends answering, because
`app/main.py` passes the raw utterance string to
`ai_services.get_response`, whose documented parameter is a dict
`{sender, text}`; `message.get("sender")` on a `str` raises
`AttributeError` before any backend is reached. -/
theorem C2_code_bug_theorem :
    get_structured_intent ctx0 ("tell me a joke".data) = Intent.general_chat ∧
    get_response cfg0 [] (.pyStr ("tell me a joke".data)) [] []
      (.ok []) (.ok ("hello".data)) (.ok ("hi there".data)) =
      .error .attributeError ∧
    (chat ctx0 cb0 cfg0 db0 (mkReq "tell me a joke")).1 = .httpError 500 := by
  decide

/-! ## C10 — empty user text short-circuits generation -/

/-- C10 (confirmed): when the user text is empty or whitespace-only, the
response generator returns the fixed reply
`I didn’t catch that. Could you say it again?` without querying or storing
semantic memory and without invoking any backend. -/
theorem C10_empty_input_theorem (cfg : GenCfg) (sys text hist facts : List Char)
    (semQ : Except Unit (List (List Char))) (gem coh : Except Unit (List Char))
    (h : pstrip text = []) :
    getResponseModel cfg sys text hist facts semQ gem coh =
      (didntCatchL, ⟨false, false, []⟩) := by
  simp [getResponseModel, h]

/-- C10 witness: the theorem applied to a whitespace-only text. -/
theorem C10_witness :
    getResponseModel cfg0 [] ("   ".data) [] [] (.ok []) (.ok ("hello".data))
      (.ok ("hi there".data)) = (didntCatchL, ⟨false, false, []⟩) :=
  C10_empty_input_theorem cfg0 [] ("   ".data) [] [] (.ok [])
    (.ok ("hello".data)) (.ok ("hi there".data)) (by decide)

/-! ## C3 — PendingTask uniqueness -/

/-- C3 counterexample: two consecutive CreateTask turns with unresolved
times leave **two** simultaneous `pending_tasks` rows for user 1 —
`save_pending_task` is a plain insert, so the earlier slot is not removed.
This refutes "at most one PendingTask exists for that user at any time". -/
theorem C3_counterexample :
    ((chat ctx0 cb0 cfg0
        ((chat ctx0 cb0 cfg0 db0 (mkReq "remind me to sleep")).2.1)
        (mkReq "remind me to eat")).2.1.pending.filter
          (fun r => r.user_id == 1)).length = 2 := by decide

/-- Every row produced by `List.foldl pickLatest` from a bounded accumulator
over bounded rows stays bounded. -/
theorem foldl_pickLatest_lt (bound : Nat) :
    ∀ (l : List PendingRow), (∀ r ∈ l, r.created_at < bound) →
      ∀ (acc : Option PendingRow), (∀ a, acc = some a → a.created_at < bound) →
      ∀ a, l.foldl pickLatest acc = some a → a.created_at < bound := by
  intro l
  induction l with
  | nil => intro _ acc hacc a ha; exact hacc a ha
  | cons r rest ih =>
    intro h acc hacc a ha
    refine ih (fun x hx => h x (List.mem_cons_of_mem _ hx)) (pickLatest acc r) ?_ a ha
    intro b hb
    cases hc : acc with
    | none =>
      rw [hc] at hb
      simp only [pickLatest] at hb
      cases hb
      exact h r (List.mem_cons_self _ _)
    | some c =>
      rw [hc] at hb
      simp only [pickLatest] at hb
      split at hb
      · cases hb
        exact h r (List.mem_cons_self _ _)
      · cases hb
        exact hacc _ hc

/-- Appending a row whose `created_at` equals the bound makes it the fold's
result. -/
theorem foldl_pickLatest_new (bound : Nat) (newR : PendingRow)
    (hn : newR.created_at = bound) (l : List PendingRow)
    (h : ∀ r ∈ l, r.created_at < bound) (acc : Option PendingRow)
    (hacc : ∀ a, acc = some a → a.created_at < bound) :
    (l ++ [newR]).foldl pickLatest acc = some newR := by
  rw [List.foldl_append]
  cases hf : l.foldl pickLatest acc with
  | none => simp [pickLatest]
  | some b =>
    have hb := foldl_pickLatest_lt bound l h acc hacc b hf
    simp only [List.foldl_cons, List.foldl_nil, pickLatest]
    rw [if_pos (hn ▸ hb)]

/-- C3 (amended): `save_pending_task` does not remove the user's earlier
pending rows (several may coexist, as the counterexample shows), but
`get_pending_task` always returns the most recently created row — the
latest save wins at read time, which is the only sense in which a newer
CreateTask supersedes an older unresolved one. -/
theorem C3_latest_wins_theorem (db : DB) (uid : Nat) (title : List Char)
    (hwf : ∀ r ∈ db.pending, r.created_at < db.clock) :
    get_pending_task (save_pending_task db uid title) uid =
      some ⟨db.nextId, uid, title, db.clock⟩ := by
  unfold get_pending_task save_pending_task
  simp only [List.filter_append]
  have hstep :
      List.filter (fun r => r.user_id == uid)
        [(⟨db.nextId, uid, title, db.clock⟩ : PendingRow)] =
        [⟨db.nextId, uid, title, db.clock⟩] := by simp
  rw [hstep]
  refine foldl_pickLatest_new db.clock _ rfl _ ?_ none ?_
  · intro r hr
    exact hwf r (List.mem_of_mem_filter hr)
  · intro a ha
    cases ha

/-- C3 witness: the amended theorem applied to the empty store. -/
theorem C3_witness :
    get_pending_task (save_pending_task db0 1 ("x".data)) 1 =
      some ⟨0, 1, "x".data, 0⟩ :=
  C3_latest_wins_theorem db0 1 ("x".data) (by intro r hr; cases hr)

/-! ## C4 — pending-task finalization -/

/-- C4 counterexample: after an unresolved CreateTask turn (one pending
row), a next turn that re-resolves to a concrete time persists a task but
does **not** consume the pending slot (the row count stays 1, not 0) —
`delete_pending_task` is never called by the handler.  Moreover a bare
time-only follow-up such as `8 pm` classifies as GeneralChat, so it
neither finalizes the pending task nor re-asks with the clarifying
question. -/
theorem C4_counterexample :
    (((chat ctx0 cb0 cfg0
        ((chat ctx0 cb0 cfg0 db0 (mkReq "remind me to sleep")).2.1)
        (mkReq "remind me to eat at 8 pm")).2.1.pending.filter
          (fun r => r.user_id == 1)).length = 1 ∧
      ((chat ctx0 cb0 cfg0
        ((chat ctx0 cb0 cfg0 db0 (mkReq "remind me to sleep")).2.1)
        (mkReq "remind me to eat at 8 pm")).2.1.tasks.length = 1)) ∧
    get_structured_intent ctx0 ("8 pm".data) = Intent.general_chat := by decide

/-- C4 (amended): whatever pending rows a user has, a turn whose utterance
classifies as CreateTask with a resolved time persists a new task built
from that turn's own slots and leaves the `pending_tasks` table untouched:
the pending slot is not consumed and the user does not return to an empty
("Idle") pending state. -/
theorem C4_no_finalize_theorem (ctx : TimeCtx) (cb : Collab) (cfg : GenCfg)
    (db : DB) (req : Request) (s : List Char) (t : List Char) (d : DT)
    (pr cat nts : List Char)
    (hq : quickIntercept (pstrip (pyLower req.user_message)) = false)
    (hh : histText cb req.chat_id = .ok s)
    (hcls : get_structured_intent ctx req.user_message =
      .create_task t (some d) pr cat nts) :
    (chat ctx cb cfg db req).2.1.pending = db.pending ∧
    (chat ctx cb cfg db req).2.1.tasks =
      db.tasks ++ [⟨req.userId, t, some d, pr, cat, nts⟩] := by
  simp only [chat, hq, hh, hcls, Bool.false_eq_true, if_false, save_task,
    Option.isNone_some]
  simp

/-- C4 witness: the amended theorem applied to a store holding the pending
row of a previous unresolved `remind me to sleep` turn. -/
theorem C4_witness :
    (chat ctx0 cb0 cfg0 (save_pending_task db0 1 ("sleep".data))
      (mkReq "remind me to eat at 8 pm")).2.1.pending =
      (save_pending_task db0 1 ("sleep".data)).pending ∧
    (chat ctx0 cb0 cfg0 (save_pending_task db0 1 ("sleep".data))
      (mkReq "remind me to eat at 8 pm")).2.1.tasks =
      (save_pending_task db0 1 ("sleep".data)).tasks ++
        [⟨1, "eat".data, some ⟨100, 1200⟩, "medium".data, "personal".data, []⟩] :=
  C4_no_finalize_theorem ctx0 cb0 cfg0 (save_pending_task db0 1 ("sleep".data))
    (mkReq "remind me to eat at 8 pm") [] ("eat".data) ⟨100, 1200⟩
    ("medium".data) ("personal".data) [] (by decide) (by rfl) (by decide)

/-! ## C5 — context-assembly fault isolation -/

/-- C5 counterexample: with the facts fetch healthy and semantic memory
healthy, a failing conversation-history fetch alone aborts the turn with
HTTP 500 — the history fetch is not individually fault-tolerant. -/
theorem C5_counterexample :
    (chat ctx0 cbHistErr cfg0 db0 (mkReq "remind me to sleep")).1 =
      .httpError 500 := by decide

/-- C5 (amended): of the three context fetches, the knowledge-graph fetch
and the semantic-memory query are individually fault-tolerant — each
failure contributes an empty value and changes nothing else — but the
conversation-history fetch is not wrapped: its failure aborts the whole
turn with HTTP 500, leaving only the already-issued profile write. -/
theorem C5_partial_isolation_theorem (ctx : TimeCtx) (cb : Collab)
    (cfg : GenCfg) (db : DB) (req : Request) :
    (chat ctx { cb with facts := .error () } cfg db req =
      chat ctx { cb with facts := .ok [] } cfg db req) ∧
    (quickIntercept (pstrip (pyLower req.user_message)) = false →
      histText cb req.chat_id = .error () →
      chat ctx cb cfg db req = (.httpError 500, db, profileEffects req)) ∧
    (∀ sys text hist facts gem coh,
      getResponseModel cfg sys text hist facts (.error ()) gem coh =
        getResponseModel cfg sys text hist facts (.ok []) gem coh) := by
  refine ⟨?_, ?_, ?_⟩
  · simp only [chat, histText, renderFacts, joinNl]
    rfl
  · intro hq hh
    simp only [chat, hq, hh, Bool.false_eq_true, if_false]
  · intro sys text hist facts gem coh
    simp only [getResponseModel]

/-- C5 witness: the amended theorem applied at a concrete failing-history
turn (second conjunct) and at concrete inputs of the other conjuncts. -/
theorem C5_witness :
    chat ctx0 cbHistErr cfg0 db0 (mkReq "remind me to sleep") =
      (.httpError 500, db0, profileEffects (mkReq "remind me to sleep")) :=
  (C5_partial_isolation_theorem ctx0 cbHistErr cfg0 db0
    (mkReq "remind me to sleep")).2.1 (by decide) (by rfl)

/-! ## C7 — unrecognized-action frame property -/

/-- The dispatch has no arm for these classifier outputs. -/
def isUnhandled : Intent → Bool
  | .get_chat_history => true
  | .open_external _ _ => true
  | _ => false

/-- C7 counterexample: `open spotify` (classified `open_external`) sent
with a profile name in the request returns the fixed unknown-action reply
**and** writes the user-profile store — the turn is not free of store
writes, contrary to the claim's "no store is written (including no
user-profile update)". -/
theorem C7_counterexample :
    chat ctx0 cb0 cfg0 db0 ⟨"open spotify".data, none, some ("bob".data), none, 1⟩ =
      (.ok false unknownActionReply, db0,
        [.updateProfile 1 (some ("bob".data)) none]) := by decide

/-- C7 (amended): a turn whose classified action has no dispatch arm
(`get_chat_history` or `open_external`) and which is not intercepted by
the greeting/identity shortcut returns the fixed `⚠ Unknown action` reply
with `success = false`, persists no turn and writes no task, pending,
chat or fact store — but the user-profile update of lines 150–152 still
happens whenever the request carries a name or email. -/
theorem C7_unknown_theorem (ctx : TimeCtx) (cb : Collab) (cfg : GenCfg)
    (db : DB) (req : Request) (s : List Char)
    (hq : quickIntercept (pstrip (pyLower req.user_message)) = false)
    (hh : histText cb req.chat_id = .ok s)
    (hu : isUnhandled (get_structured_intent ctx req.user_message) = true) :
    chat ctx cb cfg db req = (.ok false unknownActionReply, db, profileEffects req) := by
  cases hgi : get_structured_intent ctx req.user_message with
  | save_fact k v => rw [hgi] at hu; simp [isUnhandled] at hu
  | create_task t d p c n => rw [hgi] at hu; simp [isUnhandled] at hu
  | fetch_tasks => rw [hgi] at hu; simp [isUnhandled] at hu
  | general_chat => rw [hgi] at hu; simp [isUnhandled] at hu
  | get_chat_history =>
    simp only [chat, hq, hh, hgi, Bool.false_eq_true, if_false]
  | open_external a q =>
    simp only [chat, hq, hh, hgi, Bool.false_eq_true, if_false]

/-- C7 witness: the amended theorem applied to the `open spotify` request
without profile fields — the effect list is then empty. -/
theorem C7_witness :
    chat ctx0 cb0 cfg0 db0 (mkReq "open spotify") =
      (.ok false unknownActionReply, db0, profileEffects (mkReq "open spotify")) :=
  C7_unknown_theorem ctx0 cb0 cfg0 db0 (mkReq "open spotify") []
    (by decide) (by rfl) (by decide)

/-! ## C9 — fixed slot values of every create_task intent -/

/-- The external-app loop only ever produces `open_external` intents. -/
theorem externalApp_not_create (apps : List (List Char)) (msg : List Char)
    (i : Intent) (h : externalApp apps msg = some i) :
    ∀ t d pr c n, i ≠ .create_task t d pr c n := by
  induction apps with
  | nil => cases h
  | cons a rest ih =>
    simp only [externalApp] at h
    split at h
    · cases h
      intro t d pr c n
      simp
    · exact ih h

/-- C9 (confirmed): every `create_task` intent the classifier produces
carries the fixed slots `priority = "medium"`, `category = "personal"`,
`notes = ""`, whatever the utterance: every construction site of the
intent uses exactly these literals and no rule reads them from the input. -/
theorem C9_fixed_slots_theorem (ctx : TimeCtx) (u : List Char)
    (t : List Char) (d : Option DT) (pr cat nts : List Char)
    (h : get_structured_intent ctx u = .create_task t d pr cat nts) :
    pr = "medium".data ∧ cat = "personal".data ∧ nts = [] := by
  unfold get_structured_intent classifyCore at h
  split at h
  · simp at h
  split at h
  · simp at h
  split at h
  · injection h with h1 h2 h3 h4 h5
    exact ⟨h3.symm, h4.symm, h5.symm⟩
  split at h
  · simp only [taskFromMatch] at h
    injection h with h1 h2 h3 h4 h5
    exact ⟨h3.symm, h4.symm, h5.symm⟩
  split at h
  · simp only [taskFromMatch] at h
    injection h with h1 h2 h3 h4 h5
    exact ⟨h3.symm, h4.symm, h5.symm⟩
  split at h
  · cases h
  split at h
  · cases h
  split at h
  · next i heq =>
    exact absurd h (externalApp_not_create _ _ _ heq t d pr cat nts)
  · cases h

/-- C9 witness: the theorem applied to a concrete reminder utterance. -/
theorem C9_witness :
    get_structured_intent ctx0 ("remind me to sleep".data) =
      .create_task ("sleep".data) none ("medium".data) ("personal".data) [] ∧
    ("medium".data = "medium".data ∧ "personal".data = "personal".data ∧
      ([] : List Char) = []) :=
  ⟨by decide, C9_fixed_slots_theorem ctx0 ("remind me to sleep".data)
    ("sleep".data) none ("medium".data) ("personal".data) [] (by decide)⟩

/-! ## C8 — normalization invariance of the classifier -/

theorem cn_ofNat (n : Nat) (h : n < 55296) : cn (Char.ofNat n) = n := by
  unfold cn Char.toNat
  rw [Char.ofNat, dif_pos (Or.inl h)]
  simp [Char.ofNatAux, UInt32.toNat]

theorem pyLowerC_pyUpperC (c : Char) : pyLowerC (pyUpperC c) = pyLowerC c := by
  unfold pyUpperC pyLowerC
  by_cases h : (97 ≤ cn c && cn c ≤ 122) = true
  · rw [if_pos h]
    simp only [Bool.and_eq_true, decide_eq_true_eq] at h
    have h1 : cn (Char.ofNat (cn c - 32)) = cn c - 32 := cn_ofNat _ (by omega)
    rw [if_pos (by rw [h1]; simp only [Bool.and_eq_true, decide_eq_true_eq]; omega),
      if_neg (by simp only [Bool.and_eq_true, decide_eq_true_eq]; omega)]
    rw [h1]
    have h2 : cn c - 32 + 32 = cn c := by omega
    rw [h2]
    exact Char.ofNat_toNat c
  · rw [if_neg h]

theorem pyLower_pyUpper (u : List Char) : pyLower (pyUpper u) = pyLower u := by
  unfold pyLower pyUpper
  rw [List.map_map]
  exact List.map_congr_left (fun c _ => pyLowerC_pyUpperC c)

theorem pyLowerC_ws (c : Char) (h : isPySpace c = true) : pyLowerC c = c := by
  simp only [isPySpace, Bool.or_eq_true, beq_iff_eq] at h
  unfold pyLowerC
  rw [if_neg]
  rcases h with ((((h | h) | h) | h) | h) | h <;>
    simp only [Bool.and_eq_true, decide_eq_true_eq, not_and] <;> omega

theorem lstrip_append_ws (w x : List Char) (hw : ∀ c ∈ w, isPySpace c = true) :
    lstrip (w ++ x) = lstrip x := by
  unfold lstrip
  rw [List.dropWhile_append, if_pos]
  rw [List.isEmpty_iff, List.dropWhile_eq_nil_iff]
  exact hw

theorem rstrip_eq_nil_iff (x : List Char) :
    rstrip x = [] ↔ ∀ c ∈ x, isPySpace c = true := by
  unfold rstrip
  rw [List.reverse_eq_nil_iff, List.dropWhile_eq_nil_iff]
  constructor
  · intro h c hc
    exact h c (List.mem_reverse.mpr hc)
  · intro h c hc
    exact h c (List.mem_reverse.mp hc)

theorem rstrip_append_ws (a b : List Char) (hb : ∀ c ∈ b, isPySpace c = true) :
    rstrip (a ++ b) = rstrip a := by
  unfold rstrip
  rw [List.reverse_append, List.dropWhile_append, if_pos]
  rw [List.isEmpty_iff, List.dropWhile_eq_nil_iff]
  intro c hc
  exact hb c (List.mem_reverse.mp hc)

theorem rstrip_append_right (a b : List Char) (hb : rstrip b ≠ []) :
    rstrip (a ++ b) = a ++ rstrip b := by
  unfold rstrip at hb ⊢
  rw [List.reverse_append, List.dropWhile_append, if_neg, List.reverse_append,
    List.reverse_reverse]
  intro hcon
  rw [List.isEmpty_iff] at hcon
  exact hb (by rw [hcon]; rfl)

theorem pstrip_ws_prefix (w x : List Char) (hw : ∀ c ∈ w, isPySpace c = true) :
    pstrip (w ++ x) = pstrip x := by
  unfold pstrip
  by_cases hx : rstrip x = []
  · have hxall := (rstrip_eq_nil_iff x).mp hx
    have : rstrip (w ++ x) = [] := by
      rw [rstrip_eq_nil_iff]
      intro c hc
      rcases List.mem_append.mp hc with h | h
      · exact hw c h
      · exact hxall c h
    rw [this, hx]
  · rw [rstrip_append_right w x hx, lstrip_append_ws w _ hw]

/-- After normalization, a message on which no rule fires classifies as
`general_chat`. -/
theorem classifyCore_default (ctx : TimeCtx) (msg : List Char)
    (h1 : matchFact msg = none) (h2 : matchGenericFact msg = none)
    (h3 : matchTaskDue msg = none) (h4 : reminderMatch msg = none)
    (h5 : flexMatch msg = none) (h6 : anySub fetchKeywords msg = false)
    (h7 : anySub historyKeywords msg = false)
    (h8 : externalApp appsList msg = none) :
    classifyCore ctx msg = .general_chat := by
  unfold classifyCore
  rw [h1, h2, h3, h4, h5, h6, h7, h8]
  rfl

/-- The courtesy regex removes a literal `please ` prefix together with the
whitespace run that follows it. -/
theorem stripCourtesy_please (X : List Char) :
    stripCourtesy ("please ".data ++ X) = X.dropWhile isPySpace := rfl

/-- The courtesy regex removes a literal `can you ` prefix together with
the whitespace run that follows it. -/
theorem stripCourtesy_canyou (X : List Char) :
    stripCourtesy ("can you ".data ++ X) = X.dropWhile isPySpace := rfl

/-- Invariance of the classifier under one prepended courtesy prefix, for
an utterance whose normalized form carries no courtesy prefix itself. -/
theorem courtesy_invariant_aux (ctx : TimeCtx) (u : List Char) (pfx : List Char)
    (hne : stripCourtesy (pstrip (pyLower u)) = pstrip (pyLower u))
    (hlow : pyLower pfx = pfx)
    (hsc : ∀ X, stripCourtesy (pfx ++ X) = X.dropWhile isPySpace)
    (hlst : ∀ X, lstrip (pfx ++ X) = pfx ++ X)
    (hdeg : classifyCore ctx (stripCourtesy (lstrip (rstrip pfx))) =
      classifyCore ctx []) :
    get_structured_intent ctx (pfx ++ u) = get_structured_intent ctx u := by
  unfold get_structured_intent
  have hmap : pyLower (pfx ++ u) = pfx ++ pyLower u := by
    unfold pyLower
    rw [List.map_append]
    unfold pyLower at hlow
    rw [hlow]
  rw [hmap]
  by_cases hcase : rstrip (pyLower u) = []
  · have hx := (rstrip_eq_nil_iff _).mp hcase
    have h1 : rstrip (pfx ++ pyLower u) = rstrip pfx :=
      rstrip_append_ws _ _ hx
    have h2 : lstrip (rstrip (pyLower u)) = [] := by
      rw [hcase]
      rfl
    unfold pstrip
    rw [h1, h2]
    exact hdeg
  · have h1 : rstrip (pfx ++ pyLower u) = pfx ++ rstrip (pyLower u) :=
      rstrip_append_right _ _ hcase
    unfold pstrip at hne ⊢
    rw [h1, hlst, hsc, hne]
    rfl

/-- C8 counterexample: prepending `please ` changes the classification of
`could you remind me to sleep` from `create_task` to `general_chat`,
because the normalization strips only the **first** courtesy prefix. -/
theorem C8_counterexample :
    get_structured_intent ctx0 ("could you remind me to sleep".data) =
      .create_task ("sleep".data) none ("medium".data) ("personal".data) [] ∧
    get_structured_intent ctx0 ("please could you remind me to sleep".data) =
      .general_chat := by decide

/-- C8 (amended): the classifier is invariant under changing the letter
case of the utterance and under adding leading whitespace; it is invariant
under prepending a courtesy prefix (`please `, `can you `) **only when**
the normalized utterance does not itself begin with a courtesy prefix —
stacked courtesy prefixes are stripped once, not repeatedly, and can
change the intent (see the counterexample). -/
theorem C8_normalization_theorem (ctx : TimeCtx) (u : List Char)
    (w : List Char) (hw : ∀ c ∈ w, isPySpace c = true) :
    get_structured_intent ctx (pyUpper u) = get_structured_intent ctx u ∧
    get_structured_intent ctx (w ++ u) = get_structured_intent ctx u ∧
    (stripCourtesy (pstrip (pyLower u)) = pstrip (pyLower u) →
      get_structured_intent ctx ("please ".data ++ u) =
        get_structured_intent ctx u ∧
      get_structured_intent ctx ("can you ".data ++ u) =
        get_structured_intent ctx u) := by
  refine ⟨?_, ?_, ?_⟩
  · unfold get_structured_intent
    rw [pyLower_pyUpper]
  · unfold get_structured_intent
    have hmap : pyLower (w ++ u) = pyLower w ++ pyLower u := List.map_append _ _ _
    rw [hmap, pstrip_ws_prefix]
    intro c hc
    rcases List.mem_map.mp hc with ⟨x, hx, rfl⟩
    rw [pyLowerC_ws x (hw x hx)]
    exact hw x hx
  · intro hne
    constructor
    · refine courtesy_invariant_aux ctx u ("please ".data) hne (by decide)
        stripCourtesy_please (fun X => rfl) ?_
      have e1 : lstrip (rstrip ("please ".data)) = "please".data := by decide
      rw [e1]
      have e2 : stripCourtesy ("please".data) = "please".data := by decide
      rw [e2]
      rw [classifyCore_default ctx ("please".data) (by decide) (by decide)
        (by decide) (by decide) (by decide) (by decide) (by decide) (by decide)]
      rw [classifyCore_default ctx [] (by decide) (by decide) (by decide)
        (by decide) (by decide) (by decide) (by decide) (by decide)]
    · refine courtesy_invariant_aux ctx u ("can you ".data) hne (by decide)
        stripCourtesy_canyou (fun X => rfl) ?_
      have e1 : lstrip (rstrip ("can you ".data)) = "can you".data := by decide
      rw [e1]
      have e2 : stripCourtesy ("can you".data) = "can you".data := by decide
      rw [e2]
      rw [classifyCore_default ctx ("can you".data) (by decide) (by decide)
        (by decide) (by decide) (by decide) (by decide) (by decide) (by decide)]
      rw [classifyCore_default ctx [] (by decide) (by decide) (by decide)
        (by decide) (by decide) (by decide) (by decide) (by decide)]

/-- C8 witness: the theorem applied to `list tasks` with a space prefix. -/
theorem C8_witness :
    get_structured_intent ctx0 (pyUpper ("list tasks".data)) =
      get_structured_intent ctx0 ("list tasks".data) ∧
    get_structured_intent ctx0 ([' '] ++ "list tasks".data) =
      get_structured_intent ctx0 ("list tasks".data) ∧
    get_structured_intent ctx0 ("please ".data ++ "list tasks".data) =
      get_structured_intent ctx0 ("list tasks".data) ∧
    get_structured_intent ctx0 ("can you ".data ++ "list tasks".data) =
      get_structured_intent ctx0 ("list tasks".data) := by
  have h := C8_normalization_theorem ctx0 ("list tasks".data) [' ']
    (by intro c hc; simp at hc; rw [hc]; rfl)
  exact ⟨h.1, h.2.1, (h.2.2 (by decide)).1, (h.2.2 (by decide)).2⟩

/-! ## C6 — clock-time parsing

The claim's grammar, written as a phrase builder: an hour `1..12`,
optional two-digit minutes, the meridiem attached or space-separated, and
an optional trailing day qualifier. -/

inductive Mer where
  | am
  | pm
deriving DecidableEq, Repr

inductive DayQ where
  | noQ
  | qToday
  | qTomorrow
deriving DecidableEq, Repr

def merChars : Mer → List Char
  | .am => ['a', 'm']
  | .pm => ['p', 'm']

def merHead : Mer → Char
  | .am => 'a'
  | .pm => 'p'

def merPm : Mer → Bool
  | .am => false
  | .pm => true

def qualSuffix : DayQ → List Char
  | .noQ => []
  | .qToday => ' ' :: todayL
  | .qTomorrow => ' ' :: tomorrowL

def offQ : DayQ → Nat
  | .noQ => 0
  | .qToday => 0
  | .qTomorrow => 1

def hourDigits (h : Nat) : List Char :=
  if h < 10 then [digitChar h] else ['1', digitChar (h - 10)]

def hourHead (h : Nat) : Char := if h < 10 then digitChar h else '1'

def hourTail (h : Nat) : List Char := if h < 10 then [] else [digitChar (h - 10)]

def twoDig (m : Nat) : List Char := [digitChar (m / 10), digitChar (m % 10)]

def minutePart : Option Nat → List Char
  | none => []
  | some m => ':' :: twoDig m

def numPart (h : Nat) (m : Option Nat) : List Char := hourDigits h ++ minutePart m

def timeCore (h : Nat) (m : Option Nat) (sp : Bool) (mer : Mer) : List Char :=
  numPart h m ++ (if sp then [' '] else []) ++ merChars mer

def mkClockPhrase (h : Nat) (m : Option Nat) (sp : Bool) (mer : Mer) (q : DayQ) :
    List Char :=
  timeCore h m sp mer ++ qualSuffix q

theorem cn_digitChar (d : Nat) (hd : d ≤ 9) : cn (digitChar d) = 48 + d :=
  cn_ofNat _ (by omega)

theorem hourDigits_eq (h : Nat) : hourDigits h = hourHead h :: hourTail h := by
  unfold hourDigits hourHead hourTail
  split <;> rfl

theorem merChars_eq (mer : Mer) : merChars mer = [merHead mer, 'm'] := by
  cases mer <;> rfl

theorem cn_hourHead (h : Nat) (h2 : h ≤ 12) :
    48 ≤ cn (hourHead h) ∧ cn (hourHead h) ≤ 57 := by
  unfold hourHead
  split
  · rw [cn_digitChar h (by omega)]
    omega
  · rw [show cn '1' = 49 from rfl]
    omega

theorem isPySpace_of_cn (c : Char)
    (h : cn c ≠ 32 ∧ cn c ≠ 9 ∧ cn c ≠ 10 ∧ cn c ≠ 13 ∧ cn c ≠ 11 ∧ cn c ≠ 12) :
    isPySpace c = false := by
  unfold isPySpace
  simp only [Bool.or_eq_false_iff, beq_eq_false_iff_ne, ne_eq]
  obtain ⟨h1, h2, h3, h4, h5, h6⟩ := h
  omega

theorem hourHead_not_ws (h : Nat) (h2 : h ≤ 12) : isPySpace (hourHead h) = false := by
  have hc := cn_hourHead h h2
  exact isPySpace_of_cn _ (by omega)

/-- Character inventory of a time-core phrase: space, digit/colon range, or
one of `a`, `p`, `m`. -/
theorem timeCore_chars (h : Nat) (m : Option Nat) (sp : Bool) (mer : Mer)
    (h2 : h ≤ 12) (hm : ∀ mv, m = some mv → mv ≤ 59) :
    ∀ c ∈ timeCore h m sp mer,
      cn c = 32 ∨ (48 ≤ cn c ∧ cn c ≤ 58) ∨ cn c = 97 ∨ cn c = 112 ∨ cn c = 109 := by
  intro c hc
  unfold timeCore numPart at hc
  simp only [List.append_assoc, List.mem_append] at hc
  rcases hc with hc | hc | hc | hc
  · unfold hourDigits at hc
    split at hc
    · simp only [List.mem_singleton] at hc
      subst hc
      rw [cn_digitChar h (by omega)]
      omega
    · simp only [List.mem_cons, List.not_mem_nil, or_false] at hc
      rcases hc with hc | hc <;> subst hc
      · rw [show cn '1' = 49 from rfl]
        omega
      · rw [cn_digitChar (h - 10) (by omega)]
        omega
  · cases hmv : m with
    | none => rw [hmv] at hc; cases hc
    | some mv =>
      rw [hmv] at hc
      have hmv59 := hm mv hmv
      unfold minutePart twoDig at hc
      simp only [List.mem_cons, List.not_mem_nil, or_false] at hc
      rcases hc with hc | hc | hc <;> subst hc
      · rw [show cn ':' = 58 from rfl]
        omega
      · rw [cn_digitChar (mv / 10) (by omega)]
        omega
      · rw [cn_digitChar (mv % 10) (by omega)]
        omega
  · split at hc
    · simp only [List.mem_singleton] at hc
      subst hc
      left
      rfl
    · cases hc
  · rw [merChars_eq] at hc
    simp only [List.mem_cons, List.not_mem_nil, or_false] at hc
    cases mer <;> rcases hc with hc | hc <;> subst hc
    · rw [show cn (merHead Mer.am) = 97 from rfl]
      omega
    · rw [show cn 'm' = 109 from rfl]
      omega
    · rw [show cn (merHead Mer.pm) = 112 from rfl]
      omega
    · rw [show cn 'm' = 109 from rfl]
      omega

theorem timeCore_no_t (h : Nat) (m : Option Nat) (sp : Bool) (mer : Mer)
    (h2 : h ≤ 12) (hm : ∀ mv, m = some mv → mv ≤ 59) :
    ∀ c ∈ timeCore h m sp mer, c ≠ 't' := by
  intro c hc hcon
  have := timeCore_chars h m sp mer h2 hm c hc
  rw [hcon] at this
  rw [show cn 't' = 116 from rfl] at this
  omega

theorem timeCore_not_ws (h : Nat) (m : Option Nat) (sp : Bool) (mer : Mer)
    (h2 : h ≤ 12) (hm : ∀ mv, m = some mv → mv ≤ 59) :
    ∀ c ∈ timeCore h m sp mer, cn c ≠ 32 → isPySpace c = false := by
  intro c hc hne
  have := timeCore_chars h m sp mer h2 hm c hc
  exact isPySpace_of_cn _ (by omega)

theorem lstrip_cons_nonws (c : Char) (l : List Char) (h : isPySpace c = false) :
    lstrip (c :: l) = c :: l := by
  unfold lstrip
  rw [List.dropWhile_cons_of_neg]
  simp [h]

theorem rstrip_snoc_nonws (l : List Char) (c : Char) (h : isPySpace c = false) :
    rstrip (l ++ [c]) = l ++ [c] := by
  unfold rstrip
  rw [List.reverse_append]
  simp only [List.reverse_cons, List.reverse_nil, List.nil_append, List.singleton_append]
  rw [List.dropWhile_cons_of_neg (by simp [h])]
  simp

theorem pstrip_cons_snoc (a : Char) (mid : List Char) (b : Char)
    (ha : isPySpace a = false) (hb : isPySpace b = false) :
    pstrip (a :: (mid ++ [b])) = a :: (mid ++ [b]) := by
  unfold pstrip
  have h1 : rstrip ((a :: mid) ++ [b]) = (a :: mid) ++ [b] :=
    rstrip_snoc_nonws (a :: mid) b hb
  simp only [List.cons_append] at h1
  rw [h1]
  exact lstrip_cons_nonws a _ ha

/-- `removeSubGo` is the identity when the needle's first character occurs
nowhere in the input. -/
theorem removeSubGo_no_head (s : Char) (subtl : List Char) :
    ∀ (fuel : Nat) (l : List Char), (∀ c ∈ l, c ≠ s) →
      removeSubGo (s :: subtl) fuel l = l := by
  intro fuel
  induction fuel with
  | zero => intro l _; cases l <;> rfl
  | succ f ih =>
    intro l hl
    cases l with
    | nil => rfl
    | cons c rest =>
      unfold removeSubGo
      rw [if_neg]
      · rw [ih rest (fun x hx => hl x (List.mem_cons_of_mem _ hx))]
      · have hcs : (s == c) = false :=
          beq_eq_false_iff_ne.mpr (fun hcon => (hl c (List.mem_cons_self _ _)) hcon.symm)
        simp [List.isPrefixOf, hcs]

theorem removeSub_no_head (s : Char) (subtl l : List Char)
    (hl : ∀ c ∈ l, c ≠ s) : removeSub (s :: subtl) l = l := by
  unfold removeSub
  rw [if_neg (by simp)]
  exact removeSubGo_no_head s subtl l.length l hl

theorem isPrefixOf_append_self (l t : List Char) : l.isPrefixOf (l ++ t) = true := by
  induction l with
  | nil => simp
  | cons c rest ih => simp [List.isPrefixOf_cons₂, ih]

/-- Removing a needle from `a ++ needle` where the needle's first character
does not occur in `a` yields `a`. -/
theorem removeSubGo_append_self (s : Char) (subtl : List Char) :
    ∀ (fuel : Nat) (a : List Char), (a ++ (s :: subtl)).length ≤ fuel →
      (∀ c ∈ a, c ≠ s) →
      removeSubGo (s :: subtl) fuel (a ++ (s :: subtl)) = a := by
  intro fuel
  induction fuel with
  | zero =>
    intro a hlen _
    exfalso
    simp [List.length_append] at hlen
  | succ f ih =>
    intro a hlen ha
    cases a with
    | nil =>
      simp only [List.nil_append]
      unfold removeSubGo
      have hpre : (s :: subtl).isPrefixOf (s :: subtl) = true := by
        have hx := isPrefixOf_append_self (s :: subtl) []
        rwa [List.append_nil] at hx
      rw [if_pos hpre]
      rw [List.drop_length]
      cases f <;> rfl
    | cons c rest =>
      simp only [List.cons_append]
      unfold removeSubGo
      rw [if_neg]
      · have hlen2 : (rest ++ s :: subtl).length ≤ f := by
          simp only [List.cons_append, List.length_cons] at hlen
          omega
        have := ih rest hlen2 (fun x hx => ha x (List.mem_cons_of_mem _ hx))
        rw [this]
      · have hcs : (s == c) = false :=
          beq_eq_false_iff_ne.mpr (fun hcon => (ha c (List.mem_cons_self _ _)) hcon.symm)
        simp [List.isPrefixOf_cons₂, hcs]

theorem removeSub_append_self (s : Char) (subtl a : List Char)
    (ha : ∀ c ∈ a, c ≠ s) :
    removeSub (s :: subtl) (a ++ (s :: subtl)) = a := by
  unfold removeSub
  rw [if_neg (by simp)]
  exact removeSubGo_append_self s subtl _ a (le_refl _) ha

/-- Scanning for a needle whose first character does not occur in the
prefix `a` reduces to scanning the suffix. -/
theorem containsSub_append_skip (s : Char) (subtl : List Char) :
    ∀ (a b : List Char), (∀ c ∈ a, c ≠ s) →
      containsSub (s :: subtl) (a ++ b) = containsSub (s :: subtl) b := by
  intro a
  induction a with
  | nil => intro b _; rfl
  | cons c rest ih =>
    intro b ha
    simp only [List.cons_append]
    have step : containsSub (s :: subtl) (c :: (rest ++ b)) =
        ((s :: subtl).isPrefixOf (c :: (rest ++ b)) ||
          containsSub (s :: subtl) (rest ++ b)) := rfl
    rw [step, ih b (fun x hx => ha x (List.mem_cons_of_mem _ hx))]
    have hcs : (s == c) = false :=
      beq_eq_false_iff_ne.mpr (fun hcon => (ha c (List.mem_cons_self _ _)) hcon.symm)
    simp [List.isPrefixOf_cons₂, hcs]

theorem containsSub_no_head (s : Char) (subtl l : List Char)
    (hl : ∀ c ∈ l, c ≠ s) : containsSub (s :: subtl) l = false := by
  have := containsSub_append_skip s subtl l [] hl
  rw [List.append_nil] at this
  rw [this]
  rfl

theorem containsSub_self_append (n t : List Char) (hn : n ≠ []) :
    containsSub n (n ++ t) = true := by
  cases n with
  | nil => exact absurd rfl hn
  | cons c rest =>
    have step : containsSub (c :: rest) ((c :: rest) ++ t) =
        ((c :: rest).isPrefixOf ((c :: rest) ++ t) ||
          containsSub (c :: rest) (rest ++ t)) := rfl
    rw [step, isPrefixOf_append_self]
    rfl

theorem timeCore_cons (h : Nat) (m : Option Nat) (sp : Bool) (mer : Mer) :
    timeCore h m sp mer =
      hourHead h ::
        (hourTail h ++ minutePart m ++ (if sp then [' '] else []) ++ merChars mer) := by
  unfold timeCore numPart
  rw [hourDigits_eq]
  simp [List.append_assoc]

theorem timeCore_shape (h : Nat) (m : Option Nat) (sp : Bool) (mer : Mer) :
    timeCore h m sp mer =
      hourHead h ::
        ((hourTail h ++ minutePart m ++ (if sp then [' '] else []) ++ [merHead mer]) ++
          ['m']) := by
  rw [timeCore_cons, merChars_eq]
  simp [List.append_assoc]

theorem lstrip_timeCore (h : Nat) (m : Option Nat) (sp : Bool) (mer : Mer)
    (h2 : h ≤ 12) : lstrip (timeCore h m sp mer) = timeCore h m sp mer := by
  rw [timeCore_cons]
  exact lstrip_cons_nonws _ _ (hourHead_not_ws h h2)

theorem rstrip_timeCore (h : Nat) (m : Option Nat) (sp : Bool) (mer : Mer)
    (_h2 : h ≤ 12) : rstrip (timeCore h m sp mer) = timeCore h m sp mer := by
  rw [timeCore_shape]
  have hx := rstrip_snoc_nonws
    (hourHead h ::
      (hourTail h ++ minutePart m ++ (if sp then [' '] else []) ++ [merHead mer]))
    'm' (by decide)
  simpa using hx

theorem pstrip_timeCore (h : Nat) (m : Option Nat) (sp : Bool) (mer : Mer)
    (h2 : h ≤ 12) : pstrip (timeCore h m sp mer) = timeCore h m sp mer := by
  unfold pstrip
  rw [rstrip_timeCore h m sp mer h2, lstrip_timeCore h m sp mer h2]

def numLast (h : Nat) (m : Option Nat) : Char :=
  match m with
  | some mv => digitChar (mv % 10)
  | none => if h < 10 then digitChar h else digitChar (h - 10)

def numInit (h : Nat) (m : Option Nat) : List Char :=
  match m with
  | some mv => hourDigits h ++ [':', digitChar (mv / 10)]
  | none => if h < 10 then [] else ['1']

theorem numPart_decomp (h : Nat) (m : Option Nat) :
    numPart h m = numInit h m ++ [numLast h m] := by
  cases m with
  | none =>
    unfold numPart numInit numLast minutePart hourDigits
    split <;> simp
  | some mv =>
    unfold numPart numInit numLast minutePart twoDig
    simp [List.append_assoc]

theorem numLast_not_ws (h : Nat) (m : Option Nat) (h2 : h ≤ 12)
    (hm : ∀ mv, m = some mv → mv ≤ 59) : isPySpace (numLast h m) = false := by
  cases m with
  | none =>
    by_cases hlt : h < 10
    · have hval : numLast h none = digitChar h := by simp [numLast, hlt]
      rw [hval]
      have hc := cn_digitChar h (by omega)
      exact isPySpace_of_cn _ (by omega)
    · have hval : numLast h none = digitChar (h - 10) := by simp [numLast, hlt]
      rw [hval]
      have hc := cn_digitChar (h - 10) (by omega)
      exact isPySpace_of_cn _ (by omega)
  | some mv =>
    have hval : numLast h (some mv) = digitChar (mv % 10) := rfl
    rw [hval]
    have hc := cn_digitChar (mv % 10) (by omega)
    exact isPySpace_of_cn _ (by omega)

theorem insertSpaceLast2_snoc2 (X : List Char) (a b : Char) :
    insertSpaceLast2 (X ++ [a, b]) = X ++ [' ', a, b] := by
  unfold insertSpaceLast2
  have hlen : (X ++ [a, b]).length - 2 = X.length := by simp
  rw [hlen]
  have h1 : List.take X.length (X ++ [a, b]) = X := List.take_left X [a, b]
  have h2 : List.drop X.length (X ++ [a, b]) = [a, b] := List.drop_left X [a, b]
  rw [h1, h2]
  simp

theorem matchI_single (h : Nat) (h1 : 1 ≤ h) (h9 : h ≤ 9) (r0 : Char)
    (rtl : List Char) (hr0 : cn r0 = 58 ∨ cn r0 = 32) :
    matchI (digitChar h :: r0 :: rtl) = some (h, r0 :: rtl) := by
  have hc : cn (digitChar h) = 48 + h := cn_digitChar h h9
  simp only [matchI]
  rw [if_neg (by
    simp only [Bool.and_eq_true, beq_iff_eq, decide_eq_true_eq, hc]
    rcases hr0 with hr | hr <;> omega)]
  rw [if_neg (by
    simp only [Bool.and_eq_true, beq_iff_eq, decide_eq_true_eq, hc]
    omega)]
  rw [if_pos (by
    simp only [Bool.and_eq_true, decide_eq_true_eq, hc]
    omega)]
  rw [hc]
  simp [Nat.add_sub_cancel_left]

theorem matchI_double (h : Nat) (h10 : 10 ≤ h) (h12 : h ≤ 12) (rest : List Char) :
    matchI ('1' :: digitChar (h - 10) :: rest) = some (h, rest) := by
  have hc : cn (digitChar (h - 10)) = 48 + (h - 10) := cn_digitChar _ (by omega)
  simp only [matchI]
  rw [if_pos (by
    simp only [Bool.and_eq_true, beq_iff_eq, decide_eq_true_eq, hc,
      show cn '1' = 49 from rfl]
    exact ⟨trivial, by omega, by omega⟩)]
  have hval : 10 + (cn (digitChar (h - 10)) - 48) = h := by
    rw [hc]
    omega
  rw [hval]

theorem matchI_hour (h : Nat) (h1 : 1 ≤ h) (h12 : h ≤ 12) (r0 : Char)
    (rtl : List Char) (hr0 : cn r0 = 58 ∨ cn r0 = 32) :
    matchI (hourDigits h ++ (r0 :: rtl)) = some (h, r0 :: rtl) := by
  by_cases hlt : h < 10
  · have hd : hourDigits h = [digitChar h] := by simp [hourDigits, hlt]
    rw [hd]
    exact matchI_single h h1 (by omega) r0 rtl hr0
  · have hd : hourDigits h = ['1', digitChar (h - 10)] := by simp [hourDigits, hlt]
    rw [hd]
    exact matchI_double h (by omega) h12 (r0 :: rtl)

theorem matchM_twoDig (m : Nat) (hm : m ≤ 59) (rest : List Char) :
    matchM (digitChar (m / 10) :: digitChar (m % 10) :: rest) = some (m, rest) := by
  have hc1 : cn (digitChar (m / 10)) = 48 + m / 10 := cn_digitChar _ (by omega)
  have hc2 : cn (digitChar (m % 10)) = 48 + m % 10 := cn_digitChar _ (by omega)
  simp only [matchM]
  rw [if_pos (by
    simp only [isDigitC, Bool.and_eq_true, decide_eq_true_eq, hc1, hc2]
    omega)]
  have hval : 10 * (cn (digitChar (m / 10)) - 48) + (cn (digitChar (m % 10)) - 48) = m := by
    rw [hc1, hc2]
    omega
  rw [hval]

theorem ws1_space_mer (mer : Mer) : ws1 (' ' :: merChars mer) = some (merChars mer) := by
  cases mer <;> rfl

theorem matchP_mer (mer : Mer) : matchP (merChars mer) = some (merPm mer, []) := by
  cases mer <;> rfl

theorem timeCore_true_eq (h : Nat) (m : Option Nat) (mer : Mer) :
    timeCore h m true mer = numPart h m ++ (' ' :: merChars mer) := by
  unfold timeCore
  simp [List.append_assoc]

theorem strptimeIMp_canon_some (h : Nat) (mv : Nat) (mer : Mer)
    (h1 : 1 ≤ h) (h12 : h ≤ 12) (hmv : mv ≤ 59) :
    strptimeIMp (numPart h (some mv) ++ (' ' :: merChars mer)) =
      some (h, mv, merPm mer) := by
  have hshape : numPart h (some mv) ++ (' ' :: merChars mer) =
      hourDigits h ++ (':' :: (digitChar (mv / 10) :: digitChar (mv % 10) ::
        (' ' :: merChars mer))) := by
    unfold numPart minutePart twoDig
    simp [List.append_assoc]
  rw [hshape]
  unfold strptimeIMp
  rw [matchI_hour h h1 h12 ':' _ (Or.inl rfl)]
  simp only [matchM_twoDig mv hmv, ws1_space_mer, matchP_mer]
  rfl

theorem strptimeIMp_nom_none (h : Nat) (mer : Mer) (h1 : 1 ≤ h) (h12 : h ≤ 12) :
    strptimeIMp (hourDigits h ++ (' ' :: merChars mer)) = none := by
  unfold strptimeIMp
  rw [matchI_hour h h1 h12 ' ' _ (Or.inr rfl)]
  cases mer <;> rfl

theorem strptimeIp_canon (h : Nat) (mer : Mer) (h1 : 1 ≤ h) (h12 : h ≤ 12) :
    strptimeIp (hourDigits h ++ (' ' :: merChars mer)) = some (h, merPm mer) := by
  unfold strptimeIp
  rw [matchI_hour h h1 h12 ' ' _ (Or.inr rfl)]
  simp only [ws1_space_mer, matchP_mer]
  rfl

/-- The meridiem-spacing normalization maps every time-core phrase to its
space-separated form. -/
theorem amPmFix_timeCore (h : Nat) (m : Option Nat) (sp : Bool) (mer : Mer)
    (h2 : h ≤ 12) (hm : ∀ mv, m = some mv → mv ≤ 59) :
    amPmFix (timeCore h m sp mer) = timeCore h m true mer := by
  cases sp with
  | false =>
    have hsplit : timeCore h m false mer = numPart h m ++ [merHead mer, 'm'] := by
      unfold timeCore
      rw [merChars_eq]
      simp
    have hrev : (timeCore h m false mer).reverse =
        'm' :: merHead mer :: numLast h m :: (numInit h m).reverse := by
      rw [hsplit, numPart_decomp]
      simp [List.reverse_append]
    have he : endsWithAmPm (timeCore h m false mer) = true := by
      unfold endsWithAmPm
      rw [hrev]
      cases mer <;> rfl
    have hw : wsBefore2 (timeCore h m false mer) = false := by
      unfold wsBefore2
      rw [hrev]
      exact numLast_not_ws h m h2 hm
    unfold amPmFix
    rw [he, hw]
    simp only [Bool.not_false, Bool.and_true, if_true]
    rw [hsplit, insertSpaceLast2_snoc2]
    unfold timeCore
    rw [merChars_eq]
    simp
  | true =>
    have hrev : (timeCore h m true mer).reverse =
        'm' :: merHead mer :: ' ' :: (numPart h m).reverse := by
      unfold timeCore
      rw [merChars_eq]
      simp [List.reverse_append]
    have he : endsWithAmPm (timeCore h m true mer) = true := by
      unfold endsWithAmPm
      rw [hrev]
      cases mer <;> rfl
    have hw : wsBefore2 (timeCore h m true mer) = true := by
      unfold wsBefore2
      rw [hrev]
      rfl
    unfold amPmFix
    rw [he, hw]
    simp

/-- The spacing-normalized time core is accepted by the `strptime` cascade
with the expected hour and minute. -/
theorem parseAfterQualifier_timeCore (off : Nat) (h : Nat) (m : Option Nat)
    (sp : Bool) (mer : Mer) (h1 : 1 ≤ h) (h12 : h ≤ 12)
    (hm : ∀ mv, m = some mv → mv ≤ 59) :
    parseAfterQualifier off (timeCore h m sp mer) =
      some (.clock off (60 * hour24From h (merPm mer) + m.getD 0)) := by
  unfold parseAfterQualifier
  rw [amPmFix_timeCore h m sp mer h12 hm, timeCore_true_eq]
  cases m with
  | some mv =>
    rw [strptimeIMp_canon_some h mv mer h1 h12 (hm mv rfl)]
    rfl
  | none =>
    have hnp : numPart h none = hourDigits h := List.append_nil _
    rw [hnp, strptimeIMp_nom_none h mer h1 h12, strptimeIp_canon h mer h1 h12]
    simp

theorem pstrip_cons_append_snoc (a : Char) (mid1 mid2 : List Char) (b : Char)
    (ha : isPySpace a = false) (hb : isPySpace b = false) :
    pstrip ((a :: mid1) ++ (mid2 ++ [b])) = (a :: mid1) ++ (mid2 ++ [b]) := by
  have key : (a :: mid1) ++ (mid2 ++ [b]) = a :: ((mid1 ++ mid2) ++ [b]) := by
    simp [List.append_assoc]
  rw [key]
  exact pstrip_cons_snoc a _ b ha hb

theorem pstrip_timeCore_space (h : Nat) (m : Option Nat) (sp : Bool) (mer : Mer)
    (h12 : h ≤ 12) :
    pstrip (timeCore h m sp mer ++ [' ']) = timeCore h m sp mer := by
  unfold pstrip
  rw [rstrip_append_ws _ _ (by decide), rstrip_timeCore h m sp mer h12,
    lstrip_timeCore h m sp mer h12]

theorem timeCore_space_no_t (h : Nat) (m : Option Nat) (sp : Bool) (mer : Mer)
    (h12 : h ≤ 12) (hm : ∀ mv, m = some mv → mv ≤ 59) :
    ∀ c ∈ timeCore h m sp mer ++ [' '], c ≠ 't' := by
  intro c hc
  rcases List.mem_append.mp hc with hc | hc
  · exact timeCore_no_t h m sp mer h12 hm c hc
  · simp only [List.mem_singleton] at hc
    subst hc
    decide

theorem tomorrowL_eq : tomorrowL = 't' :: "omorrow".data := rfl

theorem todayL_eq : todayL = 't' :: "oday".data := rfl

/-- The day-qualifier stage maps every grammar phrase to its time core and
day offset. -/
theorem parseQualified_phrase (h : Nat) (m : Option Nat) (sp : Bool) (mer : Mer)
    (q : DayQ) (h1 : 1 ≤ h) (h12 : h ≤ 12) (hm : ∀ mv, m = some mv → mv ≤ 59) :
    parseQualified (mkClockPhrase h m sp mer q) =
      some (.clock (offQ q) (60 * hour24From h (merPm mer) + m.getD 0)) := by
  cases q with
  | noQ =>
    have hP : mkClockPhrase h m sp mer .noQ = timeCore h m sp mer := by
      unfold mkClockPhrase qualSuffix
      exact List.append_nil _
    rw [hP]
    unfold parseQualified
    rw [tomorrowL_eq, todayL_eq]
    rw [containsSub_no_head 't' ("omorrow".data) _ (timeCore_no_t h m sp mer h12 hm),
      containsSub_no_head 't' ("oday".data) _ (timeCore_no_t h m sp mer h12 hm)]
    simp only [Bool.false_eq_true, if_false]
    exact parseAfterQualifier_timeCore 0 h m sp mer h1 h12 hm
  | qToday =>
    have hP : mkClockPhrase h m sp mer .qToday =
        (timeCore h m sp mer ++ [' ']) ++ todayL := by
      unfold mkClockPhrase qualSuffix
      rw [List.append_assoc]
      rfl
    rw [hP]
    unfold parseQualified
    rw [tomorrowL_eq, todayL_eq]
    rw [containsSub_append_skip 't' ("omorrow".data) _ ('t' :: "oday".data)
      (timeCore_space_no_t h m sp mer h12 hm)]
    rw [show containsSub ('t' :: "omorrow".data) ('t' :: "oday".data) = false from
      by decide]
    rw [containsSub_append_skip 't' ("oday".data) _ ('t' :: "oday".data)
      (timeCore_space_no_t h m sp mer h12 hm)]
    rw [show containsSub ('t' :: "oday".data) ('t' :: "oday".data) = true from
      by decide]
    simp only [Bool.false_eq_true, if_false, if_true]
    rw [removeSub_append_self 't' ("oday".data) _
      (timeCore_space_no_t h m sp mer h12 hm)]
    rw [pstrip_timeCore_space h m sp mer h12]
    exact parseAfterQualifier_timeCore 0 h m sp mer h1 h12 hm
  | qTomorrow =>
    have hP : mkClockPhrase h m sp mer .qTomorrow =
        (timeCore h m sp mer ++ [' ']) ++ tomorrowL := by
      unfold mkClockPhrase qualSuffix
      rw [List.append_assoc]
      rfl
    rw [hP]
    unfold parseQualified
    rw [tomorrowL_eq]
    rw [containsSub_append_skip 't' ("omorrow".data) _ ('t' :: "omorrow".data)
      (timeCore_space_no_t h m sp mer h12 hm)]
    rw [show containsSub ('t' :: "omorrow".data) ('t' :: "omorrow".data) = true from
      by decide]
    simp only [if_true]
    rw [removeSub_append_self 't' ("omorrow".data) _
      (timeCore_space_no_t h m sp mer h12 hm)]
    rw [pstrip_timeCore_space h m sp mer h12]
    exact parseAfterQualifier_timeCore 1 h m sp mer h1 h12 hm

theorem pyLowerC_id (c : Char) (hcn : cn c < 65 ∨ 90 < cn c) : pyLowerC c = c := by
  unfold pyLowerC
  rw [if_neg]
  simp only [Bool.and_eq_true, decide_eq_true_eq, not_and]
  omega

theorem pyLower_mkClockPhrase (h : Nat) (m : Option Nat) (sp : Bool) (mer : Mer)
    (q : DayQ) (h12 : h ≤ 12) (hm : ∀ mv, m = some mv → mv ≤ 59) :
    pyLower (mkClockPhrase h m sp mer q) = mkClockPhrase h m sp mer q := by
  unfold pyLower
  have hall : ∀ c ∈ mkClockPhrase h m sp mer q, pyLowerC c = c := by
    intro c hc
    unfold mkClockPhrase at hc
    rcases List.mem_append.mp hc with hc | hc
    · have := timeCore_chars h m sp mer h12 hm c hc
      exact pyLowerC_id c (by omega)
    · have hq : ∀ x ∈ qualSuffix q, pyLowerC x = x := by cases q <;> decide
      exact hq c hc
  calc (mkClockPhrase h m sp mer q).map pyLowerC
      = (mkClockPhrase h m sp mer q).map id := List.map_congr_left hall
    _ = mkClockPhrase h m sp mer q := List.map_id _

theorem mkClockPhrase_no_dot (h : Nat) (m : Option Nat) (sp : Bool) (mer : Mer)
    (q : DayQ) (h12 : h ≤ 12) (hm : ∀ mv, m = some mv → mv ≤ 59) :
    ∀ c ∈ mkClockPhrase h m sp mer q, c ≠ '.' := by
  intro c hc
  unfold mkClockPhrase at hc
  rcases List.mem_append.mp hc with hc | hc
  · intro hcon
    have := timeCore_chars h m sp mer h12 hm c hc
    rw [hcon, show cn '.' = 46 from rfl] at this
    omega
  · have hq : ∀ x ∈ qualSuffix q, x ≠ '.' := by cases q <;> decide
    exact hq c hc

theorem pstrip_mkClockPhrase (h : Nat) (m : Option Nat) (sp : Bool) (mer : Mer)
    (q : DayQ) (h12 : h ≤ 12) :
    pstrip (mkClockPhrase h m sp mer q) = mkClockPhrase h m sp mer q := by
  cases q with
  | noQ =>
    have hP : mkClockPhrase h m sp mer .noQ = timeCore h m sp mer := by
      unfold mkClockPhrase qualSuffix
      exact List.append_nil _
    rw [hP]
    exact pstrip_timeCore h m sp mer h12
  | qToday =>
    unfold mkClockPhrase qualSuffix
    rw [timeCore_cons]
    have hsuf : (' ' :: todayL) = ([' ', 't', 'o', 'd', 'a'] ++ ['y']) := rfl
    rw [hsuf]
    exact pstrip_cons_append_snoc _ _ _ _ (hourHead_not_ws h h12) (by decide)
  | qTomorrow =>
    unfold mkClockPhrase qualSuffix
    rw [timeCore_cons]
    have hsuf : (' ' :: tomorrowL) =
        ([' ', 't', 'o', 'm', 'o', 'r', 'r', 'o'] ++ ['w']) := rfl
    rw [hsuf]
    exact pstrip_cons_append_snoc _ _ _ _ (hourHead_not_ws h h12) (by decide)

/-- The context-free parse of every grammar phrase. -/
theorem parseTimeCore_clock (h : Nat) (m : Option Nat) (sp : Bool) (mer : Mer)
    (q : DayQ) (h1 : 1 ≤ h) (h12 : h ≤ 12) (hm : ∀ mv, m = some mv → mv ≤ 59) :
    parseTimeCore (mkClockPhrase h m sp mer q) =
      some (.clock (offQ q) (60 * hour24From h (merPm mer) + m.getD 0)) := by
  have hne : (mkClockPhrase h m sp mer q).isEmpty = false := by
    unfold mkClockPhrase
    rw [timeCore_cons]
    rfl
  unfold parseTimeCore
  rw [hne]
  simp only [Bool.false_eq_true, if_false]
  rw [pstrip_mkClockPhrase h m sp mer q h12]
  rw [removeSub_no_head '.' [] _ (mkClockPhrase_no_dot h m sp mer q h12 hm)]
  rw [pyLower_mkClockPhrase h m sp mer q h12 hm]
  exact parseQualified_phrase h m sp mer q h1 h12 hm

/-- C6 (confirmed): for every phrase of the clock-time grammar — an hour
`1..12`, optional two-digit minutes `00..59`, the meridiem attached or
space-separated, an optional trailing `today`/`tomorrow` qualifier — the
parser resolves to a timestamp in the fixed IST frame whose day is the
current IST day plus the qualifier's offset (`today` and the default add
nothing, `tomorrow` adds one day) and whose minute of day is exactly the
parsed 12-hour time converted to 24-hour form; and phrases that match no
grammar (`soon`, the empty string, `whenever`) return unresolved — the
parser is a total function, so no fault is possible. -/
theorem C6_clock_theorem (ctx : TimeCtx) (h : Nat) (m : Option Nat) (sp : Bool)
    (mer : Mer) (q : DayQ) (h1 : 1 ≤ h) (h12 : h ≤ 12)
    (hm : ∀ mv, m = some mv → mv ≤ 59) :
    parse_time_string ctx (mkClockPhrase h m sp mer q) =
      some ⟨ctx.today + offQ q, 60 * hour24From h (merPm mer) + m.getD 0⟩ ∧
    parse_time_string ctx ("soon".data) = none ∧
    parse_time_string ctx [] = none ∧
    parse_time_string ctx ("whenever".data) = none := by
  refine ⟨?_, ?_, rfl, ?_⟩
  · unfold parse_time_string
    rw [parseTimeCore_clock h m sp mer q h1 h12 hm]
  · unfold parse_time_string
    rw [show parseTimeCore ("soon".data) = none from by decide]
  · unfold parse_time_string
    rw [show parseTimeCore ("whenever".data) = none from by decide]

/-- C6 witness: the theorem applied at `7:30 pm tomorrow`. -/
theorem C6_witness :
    parse_time_string ctx0 (mkClockPhrase 7 (some 30) true Mer.pm DayQ.qTomorrow) =
      some ⟨101, 1170⟩ ∧
    mkClockPhrase 7 (some 30) true Mer.pm DayQ.qTomorrow =
      "7:30 pm tomorrow".data ∧
    parse_time_string ctx0 ("soon".data) = none := by
  have hx := C6_clock_theorem ctx0 7 (some 30) true Mer.pm DayQ.qTomorrow
    (by decide) (by decide) (by intro mv hmv; injection hmv with hh; omega)
  refine ⟨?_, by decide, hx.2.1⟩
  rw [hx.1]
  decide

end Assistant
